import Mathlib

/-!
Verification development for the ouiche_fs core (src/inode.c, src/fs.c,
src/ouichefs_strategy_changer.c, src/strategy_changer.c).

The development shallowly embeds the C source: pure computations become Lean
functions, the on-disk state becomes an explicit record that operations
thread through, machine integers become Nat/Int with explicit 32-bit
truncation where the C code truncates, and fallible block reads become
Option-shaped branches.  Comments cite the C file and line numbers each
definition was translated from.
-/

set_option maxHeartbeats 1000000
set_option maxRecDepth 10000

namespace OuicheFS

/-- Modelled from the spec: directory capacity.  The header ouichefs.h is not
part of src/; spec section 3 and 6 fix a directory index to a single
4096-byte block of (u32 inode, fixed-length filename) entries, which with a
28-byte filename gives 128 entries per directory. -/
def OUICHEFS_MAX_SUBFILES : Nat := 128

/-- Modelled from the spec: fixed filename length in bytes (spec sections 3
and 6; header ouichefs.h is not part of src/). -/
def OUICHEFS_FILENAME_LEN : Nat := 28

/-- Modelled from the spec: block size in bytes (spec section 6, fixed block
size, e.g. 4096; header ouichefs.h is not part of src/). -/
def OUICHEFS_BLOCK_SIZE : Nat := 4096

/-- Truncation of a mathematical integer to a signed 32-bit C int, as
performed by the implicit conversion when a 64-bit difference is returned
from a function with return type int. -/
def toInt32 (x : Int) : Int := (x + 2 ^ 31) % 2 ^ 32 - 2 ^ 31

theorem toInt32_eq_self {x : Int} (h1 : -(2 ^ 31) ≤ x) (h2 : x < 2 ^ 31) :
    toInt32 x = x := by
  unfold toInt32
  have h0 : (0 : Int) ≤ x + 2 ^ 31 := by omega
  have hlt : x + 2 ^ 31 < 2 ^ 32 := by omega
  rw [Int.emod_eq_of_lt h0 hlt]
  omega

/-! ## Eviction search: in-memory view of the file tree

`ouichefs_iterate` (inode.c:251-292) recursively walks a directory's index
block: entries are visited in array order up to the first zero entry; a
directory entry is recursed into at its position, a regular-file entry has
the action applied to it.  We model the readable portion of the tree that
the walk sees as a list of children per directory (the entries before the
first zero entry of its index block), each child being either a regular
file with the metadata the action consults, or a subdirectory. -/

/-- The metadata of a regular file consulted during the eviction search:
inode number, modification time (seconds, as loaded from the on-disk
little-endian u32 by ouichefs_iget, inode.c:195), file size in bytes
(inode.c:190), and the in-memory reference count i_count (inode.c:311). -/
structure FileNode where
  ino : Nat
  mtime : Nat
  size : Nat
  icount : Nat
deriving DecidableEq

/-- A node of the file tree as seen by ouichefs_iterate: a regular file, or a
directory with its inode number and the children listed in its index block
(entries before the first zero entry, in array order). -/
inductive Tree where
  | file : FileNode → Tree
  | dir : Nat → List Tree → Tree

/-- The victim record of the eviction search (struct ouichefs_inode_kinship):
the currently best candidate and the inode number of its parent directory,
or none at the start of the search (inode.c:346-347). -/
abbrev Victim := Option (Nat × FileNode)

/-- A comparator strategy: compare(victim, candidate) returning a C int. -/
abbrev Strat := FileNode → FileNode → Int

/-- Default strategy (inode.c:230-233): return
a->i_mtime.tv_sec - b->i_mtime.tv_sec.  The tv_sec values are 64-bit; the
difference is truncated to the 32-bit int return type. -/
def ouichefs_fblocks_strategy_mtime (a b : FileNode) : Int :=
  toInt32 ((a.mtime : Int) - (b.mtime : Int))

/-- Alternate strategy installed by ouichefs_strategy_changer.c:11-14:
return b->i_size - a->i_size, truncated to the 32-bit int return type. -/
def ouichefs_strategy_size (a b : FileNode) : Int :=
  toInt32 ((b.size : Int) - (a.size : Int))

/-- Alternate strategy installed by strategy_changer.c:10-14:
return a->i_size - b->i_size, truncated to the 32-bit int return type. -/
def strategy_by_size (a b : FileNode) : Int :=
  toInt32 ((a.size : Int) - (b.size : Int))

/-- Action applied to each regular file of the walk
(ouichefs_fblocks_action, inode.c:304-327): a file whose in-memory reference
count exceeds 1 is skipped; otherwise ret is 1 when no victim is recorded
yet, ret = strategy(victim, candidate) when the strategy pointer is
non-NULL (and 0 when it is NULL), and the candidate replaces the victim
exactly when ret is positive. -/
def ouichefs_fblocks_action (strat : Option Strat) (dir : Nat) (f : FileNode)
    (v : Victim) : Victim :=
  if 1 < f.icount then v
  else
    match v with
    | none => some (dir, f)
    | some pg =>
        let ret : Int :=
          match strat with
          | none => 0
          | some s => s pg.2 f
        if 0 < ret then some (dir, f) else some pg

/-- The recursive walk (ouichefs_iterate, inode.c:251-292) specialised to a
data accumulator: entries of a directory are processed in array order; a
subdirectory entry is recursed into at its position, a regular-file entry
has the action applied with the surrounding directory's inode number. -/
def ouichefs_iterate {α : Type} (action : Nat → FileNode → α → α) :
    Nat → List Tree → α → α
  | _, [], data => data
  | d, Tree.file f :: ts, data =>
      ouichefs_iterate action d ts (action d f data)
  | d, Tree.dir ino sub :: ts, data =>
      ouichefs_iterate action d ts (ouichefs_iterate action ino sub data)

/-- The list of (parent directory inode, regular file) pairs in the order
ouichefs_iterate visits them. -/
def ouichefs_visit : Nat → List Tree → List (Nat × FileNode)
  | _, [] => []
  | d, Tree.file f :: ts => (d, f) :: ouichefs_visit d ts
  | d, Tree.dir ino sub :: ts => ouichefs_visit ino sub ++ ouichefs_visit d ts

/-- The search phase of ouichefs_fblocks (inode.c:337-353): the walk is
started on dir with the action and a victim record initialised to
(NULL, NULL). -/
def fblocksVictim (strat : Option Strat) (d : Nat) (ts : List Tree) : Victim :=
  ouichefs_iterate (ouichefs_fblocks_action strat) d ts none

/-- The eligible candidates of a search, in visit order: the visited regular
files whose in-memory reference count does not exceed 1. -/
def eligibles (d : Nat) (ts : List Tree) : List (Nat × FileNode) :=
  (ouichefs_visit d ts).filter (fun c => c.2.icount ≤ 1)

theorem ouichefs_iterate_eq_foldl {α : Type} (action : Nat → FileNode → α → α) :
    ∀ (d : Nat) (ts : List Tree) (data : α),
      ouichefs_iterate action d ts data
        = (ouichefs_visit d ts).foldl (fun a c => action c.1 c.2 a) data
  | _, [], _ => by rw [ouichefs_iterate, ouichefs_visit]; rfl
  | d, Tree.file f :: ts, data => by
      rw [ouichefs_iterate, ouichefs_visit, List.foldl_cons]
      exact ouichefs_iterate_eq_foldl action d ts (action d f data)
  | d, Tree.dir ino sub :: ts, data => by
      rw [ouichefs_iterate, ouichefs_visit, List.foldl_append]
      rw [ouichefs_iterate_eq_foldl action ino sub data]
      exact ouichefs_iterate_eq_foldl action d ts _

/-! ### Characterising the search result

The fold of the action over the visit list is first reduced to a fold over
the eligible candidates, then, for a strategy that realises a strict order
given by an integer key, to the first minimum of that key. -/

/-- The replacement step of ouichefs_fblocks_action once a candidate has
passed the eligibility test (inode.c:316-326). -/
def selStep (strat : Option Strat) (v : Victim) (c : Nat × FileNode) : Victim :=
  match v with
  | none => some c
  | some pg =>
      let ret : Int :=
        match strat with
        | none => 0
        | some s => s pg.2 c.2
      if 0 < ret then some c else some pg

/-- Selection step of the specification order: keep the candidate exactly
when its key is strictly smaller than the current victim's. -/
def selK (key : FileNode → Int) (v : Victim) (c : Nat × FileNode) : Victim :=
  match v with
  | none => some c
  | some p => if key c.2 < key p.2 then some c else some p

/-- First element of x :: L with minimal key (earlier elements win ties). -/
def firstMinBy (key : FileNode → Int) :
    (Nat × FileNode) → List (Nat × FileNode) → (Nat × FileNode)
  | x, [] => x
  | x, c :: cs =>
      if key c.2 < key x.2 then firstMinBy key c cs else firstMinBy key x cs

theorem foldl_action_filter (strat : Option Strat) :
    ∀ (L : List (Nat × FileNode)) (v : Victim),
      L.foldl (fun a c => ouichefs_fblocks_action strat c.1 c.2 a) v
        = (L.filter fun c => c.2.icount ≤ 1).foldl (selStep strat) v := by
  intro L
  induction L with
  | nil => intro v; rfl
  | cons c L ih =>
      intro v
      rw [List.foldl_cons, List.filter_cons]
      by_cases h : c.2.icount ≤ 1
      · rw [if_pos (decide_eq_true h), List.foldl_cons, ih]
        have hact : ouichefs_fblocks_action strat c.1 c.2 v = selStep strat v c := by
          unfold ouichefs_fblocks_action selStep
          rw [if_neg (by omega : ¬ 1 < c.2.icount)]
        rw [hact]
      · rw [decide_eq_false h, if_neg Bool.false_ne_true, ih]
        have hact : ouichefs_fblocks_action strat c.1 c.2 v = v := by
          unfold ouichefs_fblocks_action
          rw [if_pos (by omega : 1 < c.2.icount)]
        rw [hact]

theorem foldl_selStep_eq_selK (S : Strat) (key : FileNode → Int)
    (M : List (Nat × FileNode))
    (H : ∀ g f, g ∈ M → f ∈ M → (0 < S g.2 f.2 ↔ key f.2 < key g.2)) :
    ∀ (L : List (Nat × FileNode)) (v : Victim),
      (∀ c ∈ L, c ∈ M) → (∀ p, v = some p → p ∈ M) →
      L.foldl (selStep (some S)) v = L.foldl (selK key) v := by
  intro L
  induction L with
  | nil => intro v _ _; rfl
  | cons c L ih =>
      intro v hL hv
      have hcM : c ∈ M := hL c (List.mem_cons_self c L)
      have hstep : selStep (some S) v c = selK key v c := by
        cases v with
        | none => rfl
        | some p =>
            have hpM : p ∈ M := hv p rfl
            have hiff := H p c hpM hcM
            show (if 0 < S p.2 c.2 then some c else some p)
              = (if key c.2 < key p.2 then some c else some p)
            by_cases hk : key c.2 < key p.2
            · rw [if_pos (hiff.mpr hk), if_pos hk]
            · rw [if_neg (fun hpos => hk (hiff.mp hpos)), if_neg hk]
      rw [List.foldl_cons, List.foldl_cons, hstep]
      refine ih (selK key v c) (fun d hd => hL d (List.mem_cons_of_mem c hd)) ?_
      intro p hp
      cases v with
      | none =>
          cases hp
          exact hcM
      | some q =>
          have hp' : (if key c.2 < key q.2 then some c else some q) = some p := hp
          by_cases hk : key c.2 < key q.2
          · rw [if_pos hk] at hp'; cases hp'; exact hcM
          · rw [if_neg hk] at hp'; cases hp'; exact hv _ rfl

theorem foldl_selK_some (key : FileNode → Int) :
    ∀ (L : List (Nat × FileNode)) (x : Nat × FileNode),
      L.foldl (selK key) (some x) = some (firstMinBy key x L)
  | [], _ => rfl
  | c :: cs, x => by
      rw [List.foldl_cons, firstMinBy]
      have hsel : selK key (some x) c
          = some (if key c.2 < key x.2 then c else x) := by
        show (if key c.2 < key x.2 then some c else some x) = _
        by_cases h : key c.2 < key x.2 <;> simp [h]
      by_cases h : key c.2 < key x.2
      · rw [hsel, if_pos h, if_pos h]
        exact foldl_selK_some key cs c
      · rw [hsel, if_neg h, if_neg h]
        exact foldl_selK_some key cs x

theorem firstMinBy_mem (key : FileNode → Int) :
    ∀ (L : List (Nat × FileNode)) (x : Nat × FileNode),
      firstMinBy key x L ∈ x :: L
  | [], _ => List.mem_cons_self _ _
  | c :: cs, x => by
      rw [firstMinBy]
      by_cases h : key c.2 < key x.2
      · rw [if_pos h]
        have := firstMinBy_mem key cs c
        simp only [List.mem_cons] at this ⊢
        tauto
      · rw [if_neg h]
        have := firstMinBy_mem key cs x
        simp only [List.mem_cons] at this ⊢
        tauto

theorem firstMinBy_min (key : FileNode → Int) :
    ∀ (L : List (Nat × FileNode)) (x : Nat × FileNode),
      ∀ c ∈ x :: L, key (firstMinBy key x L).2 ≤ key c.2
  | [], x => by
      intro c hc
      simp only [List.mem_cons, List.not_mem_nil, or_false] at hc
      rw [hc, firstMinBy]
  | c :: cs, x => by
      intro d hd
      rw [firstMinBy]
      simp only [List.mem_cons] at hd
      by_cases h : key c.2 < key x.2
      · rw [if_pos h]
        have hmin := firstMinBy_min key cs c
        rcases hd with hx | hc' | hcs
        · calc key (firstMinBy key c cs).2 ≤ key c.2 :=
                hmin c (List.mem_cons_self c cs)
            _ ≤ key d.2 := by rw [hx]; omega
        · exact hc' ▸ hmin c (List.mem_cons_self c cs)
        · exact hmin d (List.mem_cons_of_mem c hcs)
      · rw [if_neg h]
        have hmin := firstMinBy_min key cs x
        rcases hd with hx | hc' | hcs
        · exact hx ▸ hmin x (List.mem_cons_self x cs)
        · calc key (firstMinBy key x cs).2 ≤ key x.2 :=
                hmin x (List.mem_cons_self x cs)
            _ ≤ key d.2 := by rw [hc']; omega
        · exact hmin d (List.mem_cons_of_mem x hcs)

theorem firstMinBy_first (key : FileNode → Int) :
    ∀ (L : List (Nat × FileNode)) (x : Nat × FileNode),
      ∃ P Q, x :: L = P ++ firstMinBy key x L :: Q ∧
        ∀ c ∈ P, key (firstMinBy key x L).2 < key c.2
  | [], x => ⟨[], [], rfl, by simp⟩
  | c :: cs, x => by
      rw [firstMinBy]
      by_cases h : key c.2 < key x.2
      · rw [if_pos h]
        obtain ⟨P, Q, hPQ, hP⟩ := firstMinBy_first key cs c
        refine ⟨x :: P, Q, ?_, ?_⟩
        · rw [List.cons_append, ← hPQ]
        · intro e he
          rcases List.mem_cons.mp he with hx | hP'
          · have hle : key (firstMinBy key c cs).2 ≤ key c.2 :=
              firstMinBy_min key cs c c (List.mem_cons_self c cs)
            rw [hx]; omega
          · exact hP e hP'
      · rw [if_neg h]
        obtain ⟨P, Q, hPQ, hP⟩ := firstMinBy_first key cs x
        cases P with
        | nil =>
            simp only [List.nil_append] at hPQ
            refine ⟨[], c :: cs, ?_, by simp⟩
            have hx : firstMinBy key x cs = x := (List.cons.injEq .. ▸ hPQ).1.symm
            rw [hx]
            simp
        | cons p P' =>
            rw [List.cons_append] at hPQ
            have h1 : x = p := (List.cons.injEq .. ▸ hPQ).1
            have h2 : cs = P' ++ firstMinBy key x cs :: Q :=
              (List.cons.injEq .. ▸ hPQ).2
            refine ⟨x :: c :: P', Q, ?_, ?_⟩
            · rw [List.cons_append, List.cons_append, ← h2]
            · intro e he
              have hfx : key (firstMinBy key x cs).2 < key x.2 := by
                have := hP p (List.mem_cons_self p P')
                rw [← h1] at this
                exact this
              rcases List.mem_cons.mp he with hx | he' <;>
                [skip; rcases List.mem_cons.mp he' with hc | hP']
              · rw [hx]; exact hfx
              · rw [hc]; omega
              · exact hP e (List.mem_cons_of_mem p hP')

/-- Generic characterisation of the search: for a strategy that realises the
strict order of an integer key on the eligible candidates, the search
returns none exactly on an empty candidate list, and otherwise the first
visited eligible candidate with minimal key. -/
theorem fblocksVictim_char (S : Strat) (key : FileNode → Int) (d : Nat)
    (ts : List Tree)
    (H : ∀ g f, g ∈ eligibles d ts → f ∈ eligibles d ts →
        (0 < S g.2 f.2 ↔ key f.2 < key g.2)) :
    (fblocksVictim (some S) d ts = none → eligibles d ts = []) ∧
    ∀ v, fblocksVictim (some S) d ts = some v →
      v ∈ eligibles d ts ∧
      (∀ c ∈ eligibles d ts, key v.2 ≤ key c.2) ∧
      ∃ P Q, eligibles d ts = P ++ v :: Q ∧ ∀ c ∈ P, key v.2 < key c.2 := by
  have hred : fblocksVictim (some S) d ts
      = (eligibles d ts).foldl (selK key) none := by
    unfold fblocksVictim
    rw [ouichefs_iterate_eq_foldl, foldl_action_filter]
    exact foldl_selStep_eq_selK S key (eligibles d ts) H (eligibles d ts) none
      (fun c hc => hc) (fun p hp => by cases hp)
  cases hE : eligibles d ts with
  | nil =>
      constructor
      · intro _; rfl
      · intro v hv
        rw [hred, hE] at hv
        cases hv
  | cons c cs =>
      rw [hE, List.foldl_cons] at hred
      have hsel0 : selK key none c = some c := rfl
      rw [hsel0, foldl_selK_some key cs c] at hred
      constructor
      · intro hnone
        rw [hred] at hnone
        cases hnone
      · intro v hv
        rw [hred] at hv
        have hveq : v = firstMinBy key c cs := by
          injection hv with h'
          exact h'.symm
        subst hveq
        refine ⟨firstMinBy_mem key cs c, ?_, ?_⟩
        · intro e he
          exact firstMinBy_min key cs c e he
        · exact firstMinBy_first key cs c

theorem eligibles_subset_visit {d : Nat} {ts : List Tree} {c : Nat × FileNode}
    (h : c ∈ eligibles d ts) : c ∈ ouichefs_visit d ts :=
  (List.mem_filter.mp h).1

/-! ### Claim C1: the default strategy and the oldest modification time -/

/-- Claim C1, amended: under the default mtime strategy, provided every
visited file's modification time is below 2^31 (so that the 64-bit mtime
difference survives the truncation to the comparator's 32-bit int return
type), the eviction search selects the eligible regular file (in-memory
reference count at most 1) with the oldest modification time, and among
candidates of equal modification time the first one in traversal order
(the recursive entry-order walk of ouichefs_iterate) remains the victim;
it selects nothing exactly when there is no eligible candidate. -/
theorem eviction_default_selects_oldest (d : Nat) (ts : List Tree)
    (hb : ∀ c ∈ ouichefs_visit d ts, c.2.mtime < 2 ^ 31) :
    (fblocksVictim (some ouichefs_fblocks_strategy_mtime) d ts = none →
      eligibles d ts = []) ∧
    ∀ v, fblocksVictim (some ouichefs_fblocks_strategy_mtime) d ts = some v →
      v ∈ eligibles d ts ∧
      (∀ c ∈ eligibles d ts, v.2.mtime ≤ c.2.mtime) ∧
      ∃ P Q, eligibles d ts = P ++ v :: Q ∧ ∀ c ∈ P, v.2.mtime < c.2.mtime := by
  have H : ∀ g f, g ∈ eligibles d ts → f ∈ eligibles d ts →
      (0 < ouichefs_fblocks_strategy_mtime g.2 f.2 ↔
        ((f.2.mtime : Int) < (g.2.mtime : Int))) := by
    intro g f hg hf
    have hgb : g.2.mtime < 2 ^ 31 := hb g (eligibles_subset_visit hg)
    have hfb : f.2.mtime < 2 ^ 31 := hb f (eligibles_subset_visit hf)
    unfold ouichefs_fblocks_strategy_mtime
    rw [toInt32_eq_self (by push_cast; omega) (by push_cast; omega)]
    omega
  have hchar := fblocksVictim_char ouichefs_fblocks_strategy_mtime
    (fun f => (f.mtime : Int)) d ts H
  refine ⟨hchar.1, ?_⟩
  intro v hv
  obtain ⟨hmem, hmin, P, Q, hPQ, hP⟩ := hchar.2 v hv
  refine ⟨hmem, ?_, P, Q, hPQ, ?_⟩
  · intro c hc
    have h2 : (v.2.mtime : Int) ≤ (c.2.mtime : Int) := hmin c hc
    exact_mod_cast h2
  · intro c hc
    have h2 : (v.2.mtime : Int) < (c.2.mtime : Int) := hP c hc
    exact_mod_cast h2

/-- A file whose 32-bit-truncated mtime comparison misbehaves: its mtime,
3221225472 seconds, is a valid on-disk u32 timestamp. -/
def fNew : FileNode := ⟨2, 3221225472, 0, 1⟩

/-- A strictly older file (epoch mtime 0). -/
def fOld : FileNode := ⟨3, 0, 0, 1⟩

/-- A root directory holding the two files above, newest first. -/
def t1 : List Tree := [Tree.file fNew, Tree.file fOld]

/-- Claim C1, counterexample: on the concrete tree t1 with both files
eligible, the default strategy keeps the file with mtime 3221225472 even
though an eligible candidate with mtime 0 is older — the 64-bit difference
3221225472 truncates to the negative int -1073741824, so the older
candidate never replaces the victim. -/
theorem eviction_default_oldest_fails :
    fblocksVictim (some ouichefs_fblocks_strategy_mtime) 1 t1
      = some (1, fNew) ∧
    (1, fOld) ∈ eligibles 1 t1 ∧ fOld.mtime < fNew.mtime := by
  have hv : ouichefs_visit 1 t1 = [(1, fNew), (1, fOld)] := by
    simp [t1, ouichefs_visit]
  refine ⟨?_, ?_, by decide⟩
  · unfold fblocksVictim
    rw [ouichefs_iterate_eq_foldl, hv]
    decide
  · unfold eligibles
    rw [hv]
    decide

/-- Eligible file in a subdirectory, visited first, mtime 10. -/
def fA : FileNode := ⟨6, 10, 1, 1⟩

/-- Eligible file in the root, visited second, same mtime 10. -/
def fB : FileNode := ⟨7, 10, 2, 1⟩

/-- Ineligible file (reference count 5), older but in use. -/
def fC : FileNode := ⟨8, 4, 3, 5⟩

/-- A tree with a subdirectory, an mtime tie and an ineligible file. -/
def t2 : List Tree := [Tree.dir 5 [Tree.file fA], Tree.file fB, Tree.file fC]

theorem eviction_default_selects_oldest_witness :
    (∀ c ∈ ouichefs_visit 1 t2, c.2.mtime < 2 ^ 31) ∧
    ((fblocksVictim (some ouichefs_fblocks_strategy_mtime) 1 t2 = none →
        eligibles 1 t2 = []) ∧
      ∀ v, fblocksVictim (some ouichefs_fblocks_strategy_mtime) 1 t2 = some v →
        v ∈ eligibles 1 t2 ∧
        (∀ c ∈ eligibles 1 t2, v.2.mtime ≤ c.2.mtime) ∧
        ∃ P Q, eligibles 1 t2 = P ++ v :: Q ∧
          ∀ c ∈ P, v.2.mtime < c.2.mtime) := by
  have hv : ouichefs_visit 1 t2 = [(5, fA), (1, fB), (1, fC)] := by
    simp [t2, ouichefs_visit]
  have hb : ∀ c ∈ ouichefs_visit 1 t2, c.2.mtime < 2 ^ 31 := by
    rw [hv]; decide
  exact ⟨hb, eviction_default_selects_oldest 1 t2 hb⟩

/-! ### Claim C3: the size strategies of the strategy-changer modules -/

/-- Claim C3, amended: the comparator ouichefs_strategy_size installed by
src/ouichefs_strategy_changer.c (which returns b->i_size - a->i_size),
combined with the replacement rule (candidate replaces victim on a positive
result), makes the eviction pass select the largest eligible file, first
found on ties, provided file sizes are below 2^31 (so the difference
survives truncation to the 32-bit int return type); the comparator
strategy_by_size installed by src/strategy_changer.c (which returns
a->i_size - b->i_size) instead makes the pass select the smallest eligible
file, first found on ties. -/
theorem strategy_changer_size_selection (d : Nat) (ts : List Tree)
    (hb : ∀ c ∈ ouichefs_visit d ts, c.2.size < 2 ^ 31) :
    ((fblocksVictim (some ouichefs_strategy_size) d ts = none →
        eligibles d ts = []) ∧
      ∀ v, fblocksVictim (some ouichefs_strategy_size) d ts = some v →
        v ∈ eligibles d ts ∧
        (∀ c ∈ eligibles d ts, c.2.size ≤ v.2.size) ∧
        ∃ P Q, eligibles d ts = P ++ v :: Q ∧
          ∀ c ∈ P, c.2.size < v.2.size) ∧
    ((fblocksVictim (some strategy_by_size) d ts = none →
        eligibles d ts = []) ∧
      ∀ v, fblocksVictim (some strategy_by_size) d ts = some v →
        v ∈ eligibles d ts ∧
        (∀ c ∈ eligibles d ts, v.2.size ≤ c.2.size) ∧
        ∃ P Q, eligibles d ts = P ++ v :: Q ∧
          ∀ c ∈ P, v.2.size < c.2.size) := by
  constructor
  · have H : ∀ g f, g ∈ eligibles d ts → f ∈ eligibles d ts →
        (0 < ouichefs_strategy_size g.2 f.2 ↔
          (-(f.2.size : Int) < -(g.2.size : Int))) := by
      intro g f hg hf
      have hgb : g.2.size < 2 ^ 31 := hb g (eligibles_subset_visit hg)
      have hfb : f.2.size < 2 ^ 31 := hb f (eligibles_subset_visit hf)
      unfold ouichefs_strategy_size
      rw [toInt32_eq_self (by push_cast; omega) (by push_cast; omega)]
      omega
    have hchar := fblocksVictim_char ouichefs_strategy_size
      (fun f => -(f.size : Int)) d ts H
    refine ⟨hchar.1, ?_⟩
    intro v hv
    obtain ⟨hmem, hmin, P, Q, hPQ, hP⟩ := hchar.2 v hv
    refine ⟨hmem, ?_, P, Q, hPQ, ?_⟩
    · intro c hc
      have h2 : -(v.2.size : Int) ≤ -(c.2.size : Int) := hmin c hc
      omega
    · intro c hc
      have h2 : -(v.2.size : Int) < -(c.2.size : Int) := hP c hc
      omega
  · have H : ∀ g f, g ∈ eligibles d ts → f ∈ eligibles d ts →
        (0 < strategy_by_size g.2 f.2 ↔
          ((f.2.size : Int) < (g.2.size : Int))) := by
      intro g f hg hf
      have hgb : g.2.size < 2 ^ 31 := hb g (eligibles_subset_visit hg)
      have hfb : f.2.size < 2 ^ 31 := hb f (eligibles_subset_visit hf)
      unfold strategy_by_size
      rw [toInt32_eq_self (by push_cast; omega) (by push_cast; omega)]
      omega
    have hchar := fblocksVictim_char strategy_by_size
      (fun f => (f.size : Int)) d ts H
    refine ⟨hchar.1, ?_⟩
    intro v hv
    obtain ⟨hmem, hmin, P, Q, hPQ, hP⟩ := hchar.2 v hv
    refine ⟨hmem, ?_, P, Q, hPQ, ?_⟩
    · intro c hc
      have h2 : (v.2.size : Int) ≤ (c.2.size : Int) := hmin c hc
      exact_mod_cast h2
    · intro c hc
      have h2 : (v.2.size : Int) < (c.2.size : Int) := hP c hc
      exact_mod_cast h2

/-- An eligible file of size 0, visited first. -/
def fSmall : FileNode := ⟨2, 0, 0, 1⟩

/-- An eligible file of size 10, visited second. -/
def fBig : FileNode := ⟨3, 0, 10, 1⟩

/-- A root directory holding the two files above, smallest first. -/
def t3 : List Tree := [Tree.file fSmall, Tree.file fBig]

/-- Claim C3, counterexample: with the comparator strategy_by_size installed
by src/strategy_changer.c (a->i_size - b->i_size), the eviction pass on t3
selects the size-0 file even though an eligible candidate of size 10
exists: the replacement rule fires on positive results, and
strategy_by_size is positive when the candidate is smaller, not larger, so
the pass does not select the largest file. -/
theorem strategy_changer_not_always_largest :
    fblocksVictim (some strategy_by_size) 1 t3 = some (1, fSmall) ∧
    (1, fBig) ∈ eligibles 1 t3 ∧ fSmall.size < fBig.size := by
  have hv : ouichefs_visit 1 t3 = [(1, fSmall), (1, fBig)] := by
    simp [t3, ouichefs_visit]
  refine ⟨?_, ?_, by decide⟩
  · unfold fblocksVictim
    rw [ouichefs_iterate_eq_foldl, hv]
    decide
  · unfold eligibles
    rw [hv]
    decide

/-- Eligible file of size 7 in a subdirectory, visited first. -/
def fD : FileNode := ⟨6, 0, 7, 1⟩

/-- Eligible file of equal size 7 in the root, visited second. -/
def fE : FileNode := ⟨7, 0, 7, 1⟩

/-- Ineligible file of size 9 (reference count 3). -/
def fF : FileNode := ⟨8, 0, 9, 3⟩

/-- A tree with a subdirectory, a size tie and an ineligible file. -/
def t4 : List Tree := [Tree.dir 5 [Tree.file fD], Tree.file fE, Tree.file fF]

theorem strategy_changer_size_selection_witness :
    (∀ c ∈ ouichefs_visit 1 t4, c.2.size < 2 ^ 31) ∧
    (((fblocksVictim (some ouichefs_strategy_size) 1 t4 = none →
        eligibles 1 t4 = []) ∧
      ∀ v, fblocksVictim (some ouichefs_strategy_size) 1 t4 = some v →
        v ∈ eligibles 1 t4 ∧
        (∀ c ∈ eligibles 1 t4, c.2.size ≤ v.2.size) ∧
        ∃ P Q, eligibles 1 t4 = P ++ v :: Q ∧
          ∀ c ∈ P, c.2.size < v.2.size) ∧
    ((fblocksVictim (some strategy_by_size) 1 t4 = none →
        eligibles 1 t4 = []) ∧
      ∀ v, fblocksVictim (some strategy_by_size) 1 t4 = some v →
        v ∈ eligibles 1 t4 ∧
        (∀ c ∈ eligibles 1 t4, v.2.size ≤ c.2.size) ∧
        ∃ P Q, eligibles 1 t4 = P ++ v :: Q ∧
          ∀ c ∈ P, v.2.size < c.2.size)) := by
  have hv : ouichefs_visit 1 t4 = [(5, fD), (1, fE), (1, fF)] := by
    simp [t4, ouichefs_visit]
  have hb : ∀ c ∈ ouichefs_visit 1 t4, c.2.size < 2 ^ 31 := by
    rw [hv]; decide
  exact ⟨hb, strategy_changer_size_selection 1 t4 hb⟩

/-! ## The on-disk state and the directory operations

The remaining operations (remove, unlink, rmdir, lookup, create, rename)
mutate on-disk state.  The state record carries each block under the
interpretation the code uses it with (directory-entry array, file index
array, raw bytes); a memset of a whole block updates all three views, since
a block of zero bytes reads as zero entries and zero pointers under every
interpretation.  A block b with bad b = true is one for which sb_bread
fails. -/

/-- A directory entry (struct ouichefs_file): inode number and the
fixed-length filename buffer, modelled as its list of bytes. -/
structure OuichefsFile where
  inode : Nat
  filename : List Nat
deriving DecidableEq

/-- A zeroed directory entry (memset of a struct ouichefs_file). -/
def emptyEntry : OuichefsFile := ⟨0, List.replicate OUICHEFS_FILENAME_LEN 0⟩

/-- strncpy(dst, src, n) into an n-byte buffer: at most n source bytes,
with the remainder of the buffer zero-filled (C strncpy pads with null
bytes).  src models a NUL-terminated C string as its list of non-zero
bytes. -/
def strncpyBuf (src : List Nat) (n : Nat) : List Nat :=
  src.take n ++ List.replicate (n - src.length) 0

/-- strncmp(a, b, n) == 0: bytes are compared pairwise, stopping at the
first difference, at a zero byte common to both, or after n bytes.  Reads
past the end of a list model the NUL terminator region of a C string. -/
def strncmpIsEq : List Nat → List Nat → Nat → Bool
  | _, _, 0 => true
  | a, b, n + 1 =>
      if a.headD 0 ≠ b.headD 0 then false
      else if a.headD 0 = 0 then true
      else strncmpIsEq a.tail b.tail n

/-- File type stored in i_mode: regular, directory, or zero (free slot in
the inode store). -/
inductive FMode where
  | reg
  | dir
  | free
deriving DecidableEq

/-- Error numbers returned by the operations. -/
inductive Errno where
  | ioFail
  | mlink
  | nametoolong
  | nospc
  | notempty
  | exist
  | inval
deriving DecidableEq

/-- Undefined behaviour of the C code, modelled explicitly: dereferencing a
NULL pointer, reading or writing the entry array out of bounds, and
addressing files[-1] when an entry scan did not find its target. -/
inductive Fault where
  | nullDeref
  | oobRead : Nat → Fault
  | oobWrite : Nat → Fault
  | negIndex
deriving DecidableEq

/-- An inode record: the fields of struct inode / struct ouichefs_inode the
operations consult. -/
structure InodeRec where
  mode : FMode
  uid : Nat
  gid : Nat
  size : Nat
  atime : Nat
  mtime : Nat
  ctime : Nat
  nlink : Nat
  blocks : Nat
  index_block : Nat
deriving DecidableEq

/-- The filesystem state: blocks under their three interpretations, the set
of unreadable blocks, the inode store, the two bitmaps (true = free) with
their totals and free counts, the in-memory reference counts, which inodes
have a dentry alias, and the eviction walk's view of the directory a create
operates in (ouichefs_iterate's reading of its subtree). -/
structure FS where
  dirBlocks : Nat → Nat → OuichefsFile
  idxBlocks : Nat → Nat → Nat
  byteBlocks : Nat → Nat → Nat
  bad : Nat → Bool
  inodes : Nat → InodeRec
  ibm : Nat → Bool
  bbm : Nat → Bool
  nrInodes : Nat
  nrBlocks : Nat
  nrFreeInodes : Nat
  nrFreeBlocks : Nat
  icount : Nat → Nat
  hasAlias : Nat → Bool
  view : List Tree

/-- Result of an operation: a value with the new state, an errno with the
state at the point of failure, or undefined behaviour. -/
inductive OpResult (α : Type) where
  | ok : α → FS → OpResult α
  | err : Errno → FS → OpResult α
  | fault : Fault → OpResult α

/-- The errno of a result, if any. -/
def OpResult.errOf {α : Type} : OpResult α → Option Errno
  | OpResult.ok _ _ => none
  | OpResult.err e _ => some e
  | OpResult.fault _ => none

/-- The fault of a result, if any. -/
def OpResult.faultOf {α : Type} : OpResult α → Option Fault
  | OpResult.ok _ _ => none
  | OpResult.err _ _ => none
  | OpResult.fault f => some f

/-- The returned value of a successful result. -/
def OpResult.okOf {α : Type} : OpResult α → Option α
  | OpResult.ok v _ => some v
  | OpResult.err _ _ => none
  | OpResult.fault _ => none

/-! ### Bitmap allocator (modelled from the spec)

bitmap.h is not part of src/.  Spec section 4.1: allocation scans for the
first free bit, marks it used and decrements the free count, with 0 (an
always-reserved resource number) doubling as the failure value, which is
how inode.c:454-456 and 465-468 consume it; freeing sets the bit back and
increments the count. -/

/-- Modelled from the spec: scan fuel bits starting at i for the first free
bit (spec section 4.1). -/
def firstFreeBitGo (bm : Nat → Bool) : Nat → Nat → Option Nat
  | 0, _ => none
  | fuel + 1, i => if bm i then some i else firstFreeBitGo bm fuel (i + 1)

/-- Modelled from the spec: get_free_inode (spec section 4.1): first free
bit of the inode bitmap, marked used, free count decremented; 0 with the
state unchanged when the bitmap has no free bit. -/
def get_free_inode (fs : FS) : Nat × FS :=
  match firstFreeBitGo fs.ibm fs.nrInodes 0 with
  | none => (0, fs)
  | some i =>
      (i, { fs with ibm := fun j => if j = i then false else fs.ibm j,
                    nrFreeInodes := fs.nrFreeInodes - 1 })

/-- Modelled from the spec: get_free_block (spec section 4.1). -/
def get_free_block (fs : FS) : Nat × FS :=
  match firstFreeBitGo fs.bbm fs.nrBlocks 0 with
  | none => (0, fs)
  | some b =>
      (b, { fs with bbm := fun j => if j = b then false else fs.bbm j,
                    nrFreeBlocks := fs.nrFreeBlocks - 1 })

/-- Modelled from the spec: put_block (spec section 4.1): mark the block
free again and increment the free count. -/
def put_block (fs : FS) (b : Nat) : FS :=
  { fs with bbm := fun j => if j = b then true else fs.bbm j,
            nrFreeBlocks := fs.nrFreeBlocks + 1 }

/-- Modelled from the spec: put_inode (spec section 4.1). -/
def put_inode (fs : FS) (i : Nat) : FS :=
  { fs with ibm := fun j => if j = i then true else fs.ibm j,
            nrFreeInodes := fs.nrFreeInodes + 1 }

/-! ### Remove (inode.c:30-128) -/

/-- The entry scan of ouichefs_remove (inode.c:52-58): walk up to
OUICHEFS_MAX_SUBFILES entries, remembering the last index holding the
target inode, and stop at the first zero entry; returns (f_id, nr_subs),
with f_id = none for the C value -1. -/
def removeScanGo (db : Nat → OuichefsFile) (ino : Nat) :
    Nat → Nat → Option Nat → Option Nat × Nat
  | 0, i, fId => (fId, i)
  | fuel + 1, i, fId =>
      if (db i).inode = ino then removeScanGo db ino fuel (i + 1) (some i)
      else if (db i).inode = 0 then (fId, i)
      else removeScanGo db ino fuel (i + 1) fId

/-- The scan started as the C loop does (inode.c:52). -/
def removeScan (db : Nat → OuichefsFile) (ino : Nat) : Option Nat × Nat :=
  removeScanGo db ino OUICHEFS_MAX_SUBFILES 0 none

/-- Entry removal and compaction (inode.c:52-68): after the scan, entries
following the target are moved left by one (skipped when the target sits in
the last slot) and the slot at nr_subs - 1 is zeroed.  When the scan did
not find the target, f_id is -1 and the memmove addresses files[-1]:
modelled as a fault. -/
def dirRemoveEntry (db : Nat → OuichefsFile) (ino : Nat) :
    Option (Nat → OuichefsFile) :=
  match removeScan db ino with
  | (none, _) => none
  | (some fId, nrSubs) =>
      let db1 : Nat → OuichefsFile :=
        if fId = OUICHEFS_MAX_SUBFILES - 1 then db
        else fun j => if fId ≤ j ∧ j + 1 < nrSubs then db (j + 1) else db j
      some (fun j => if j = nrSubs - 1 then emptyEntry else db1 j)

/-- Zeroing of an inode record on removal (inode.c:114-122): i_blocks,
index_block, size, uid, gid, mode and the three timestamps are zeroed; the
link count is not touched by this code. -/
def zeroInode (r : InodeRec) : InodeRec :=
  { mode := FMode.free, uid := 0, gid := 0, size := 0,
    atime := 0, mtime := 0, ctime := 0,
    nlink := r.nlink, blocks := 0, index_block := 0 }

/-- memset of a whole block (inode.c:101, 108; create's scrub 556): all
three views of the block become zero. -/
def scrubBlock (fs : FS) (b : Nat) : FS :=
  { fs with
    byteBlocks := fun j => if j = b then (fun _ => 0) else fs.byteBlocks j,
    dirBlocks := fun j => if j = b then (fun _ => emptyEntry) else fs.dirBlocks j,
    idxBlocks := fun j => if j = b then (fun _ => 0) else fs.idxBlocks j }

/-- The data-block cleanup loop of ouichefs_remove (inode.c:91-104): for
each of the i_blocks - 1 index slots, a zero pointer is skipped; otherwise
the block is freed in the bitmap, and its contents are zeroed unless
reading it fails (in which case only the free is performed). -/
def scrubDataGo (bno : Nat) : Nat → Nat → FS → FS
  | 0, _, fs => fs
  | rem + 1, i, fs =>
      let b := fs.idxBlocks bno i
      if b = 0 then scrubDataGo bno rem (i + 1) fs
      else
        let fs1 := put_block fs b
        let fs2 :=
          if fs1.bad b then fs1
          else { fs1 with
                 byteBlocks := fun j => if j = b then (fun _ => 0)
                   else fs1.byteBlocks j }
        scrubDataGo bno rem (i + 1) fs2

/-- ouichefs_remove (inode.c:30-128): remove the target's entry from the
parent's index block and compact it, update the parent's timestamps (and
link count for a directory target), then best-effort content cleanup — if
the target's index block is unreadable, skip straight to inode cleanup;
otherwise free and zero each referenced data block (for a regular file) and
scrub the index block — and finally zero the inode record and free the
inode and the index block number in the bitmaps. -/
def ouichefs_remove (fs : FS) (dirIno tIno : Nat) (now : Nat) : OpResult Unit :=
  let dIdx := (fs.inodes dirIno).index_block
  let bno := (fs.inodes tIno).index_block
  if fs.bad dIdx then OpResult.err Errno.ioFail fs
  else
    match dirRemoveEntry (fs.dirBlocks dIdx) tIno with
    | none => OpResult.fault Fault.negIndex
    | some db' =>
        let fs1 : FS :=
          { fs with dirBlocks := fun b => if b = dIdx then db'
              else fs.dirBlocks b }
        let fs2 : FS :=
          { fs1 with inodes := fun j =>
              if j = dirIno then
                { fs1.inodes dirIno with
                  mtime := now, atime := now, ctime := now,
                  nlink := if (fs1.inodes tIno).mode = FMode.dir then
                      (fs1.inodes dirIno).nlink - 1
                    else (fs1.inodes dirIno).nlink }
              else fs1.inodes j }
        let fs3 : FS :=
          if fs2.bad bno then fs2
          else
            scrubBlock
              (if (fs2.inodes tIno).mode = FMode.dir then fs2
               else scrubDataGo bno ((fs2.inodes tIno).blocks - 1) 0 fs2)
              bno
        let fs4 : FS :=
          { fs3 with inodes := fun j =>
              if j = tIno then zeroInode (fs3.inodes tIno) else fs3.inodes j }
        OpResult.ok () (put_inode (put_block fs4 bno) tIno)

/-- ouichefs_unlink (inode.c:138-143) delegates to ouichefs_remove on the
dentry's inode. -/
def ouichefs_unlink (fs : FS) (dirIno tIno : Nat) (now : Nat) : OpResult Unit :=
  ouichefs_remove fs dirIno tIno now

/-- ouichefs_rmdir (inode.c:711-735): fail as not-empty when the target's
link count exceeds 2; read the target's index block (an unreadable block is
an I/O failure); fail as not-empty when the first entry is non-zero;
otherwise delegate to unlink. -/
def ouichefs_rmdir (fs : FS) (dirIno tIno : Nat) (now : Nat) : OpResult Unit :=
  if 2 < (fs.inodes tIno).nlink then OpResult.err Errno.notempty fs
  else
    let tIdx := (fs.inodes tIno).index_block
    if fs.bad tIdx then OpResult.err Errno.ioFail fs
    else if (fs.dirBlocks tIdx 0).inode ≠ 0 then OpResult.err Errno.notempty fs
    else ouichefs_unlink fs dirIno tIno now

/-! ### Lookup (inode.c:381-425) -/

/-- The lookup scan (inode.c:405-414): entries are walked in order, stopping
at the first zero entry; the first entry whose filename strncmp-matches the
searched name yields its inode number. -/
def lookupScanGo (db : Nat → OuichefsFile) (name : List Nat) :
    Nat → Nat → Option Nat
  | 0, _ => none
  | fuel + 1, i =>
      if (db i).inode = 0 then none
      else if strncmpIsEq (db i).filename name OUICHEFS_FILENAME_LEN then
        some (db i).inode
      else lookupScanGo db name fuel (i + 1)

/-- ouichefs_lookup (inode.c:381-425): reject over-long names, read the
directory's index block, scan for the name, and update the directory's
access time in every non-error case. -/
def ouichefs_lookup (fs : FS) (dirIno : Nat) (name : List Nat) (now : Nat) :
    OpResult (Option Nat) :=
  if OUICHEFS_FILENAME_LEN < name.length then OpResult.err Errno.nametoolong fs
  else
    let dIdx := (fs.inodes dirIno).index_block
    if fs.bad dIdx then OpResult.err Errno.ioFail fs
    else
      let r := lookupScanGo (fs.dirBlocks dIdx) name OUICHEFS_MAX_SUBFILES 0
      OpResult.ok r
        { fs with inodes := fun j =>
            if j = dirIno then { fs.inodes dirIno with atime := now }
            else fs.inodes j }

/-! ### Eviction entry point (inode.c:337-374) and create (inode.c:505-589) -/

/-- Which deletion route ouichefs_fblocks takes for the selected victim. -/
inductive EvRoute where
  | viaDentry
  | viaInode
deriving DecidableEq

/-- The d_iname read of the pr_info at inode.c:359: the dentry returned by
d_find_any_alias is dereferenced before the NULL test at inode.c:360, so a
NULL dentry is a NULL-pointer dereference here. -/
def d_iname_read : Option Unit → Except Fault Unit
  | none => Except.error Fault.nullDeref
  | some _ => Except.ok ()

/-- Route selection of ouichefs_fblocks after a victim was found
(inode.c:358-369): log the dentry's name (dereferencing the dentry), then
take the direct inode-based removal when the dentry is NULL and otherwise
the vfs_unlink route on the found dentry. -/
def fblocks_route (dentry : Option Unit) : Except Fault EvRoute :=
  match d_iname_read dentry with
  | Except.error f => Except.error f
  | Except.ok _ =>
      match dentry with
      | none => Except.ok EvRoute.viaInode
      | some _ => Except.ok EvRoute.viaDentry

/-- ouichefs_fblocks (inode.c:337-374): search the subtree of dir for a
victim; with no victim found return -1 (inode.c:352-353); otherwise select
the deletion route — both routes delete through ouichefs_remove on the
recorded parent (vfs_unlink resolves to ouichefs_unlink), whose return
value is discarded, ret staying 0 (inode.c:342,373). -/
def ouichefs_fblocks (strat : Option Strat) (fs : FS) (dirIno : Nat)
    (now : Nat) : Except Fault (Int × FS) :=
  match fblocksVictim strat dirIno fs.view with
  | none => Except.ok (-1, fs)
  | some pf =>
      match fblocks_route (if fs.hasAlias pf.2.ino then some () else none) with
      | Except.error f => Except.error f
      | Except.ok _ =>
          match ouichefs_remove fs pf.1 pf.2.ino now with
          | OpResult.fault f => Except.error f
          | OpResult.err _ fs1 => Except.ok (0, fs1)
          | OpResult.ok _ fs1 => Except.ok (0, fs1)

/-- The slot scan of create (inode.c:561-563): index of the first zero
entry, or OUICHEFS_MAX_SUBFILES when the array holds none — in which case
the following store addresses files[OUICHEFS_MAX_SUBFILES], out of
bounds. -/
def firstFreeSlotGo (db : Nat → OuichefsFile) : Nat → Nat → Nat
  | 0, i => i
  | fuel + 1, i => if (db i).inode = 0 then i else firstFreeSlotGo db fuel (i + 1)

/-- ouichefs_new_inode (inode.c:430-496): reject unsupported modes, fail
fast when a free count is zero, allocate an inode number and an index
block (rolling the inode back when no block is free), and initialise the
in-memory inode: directories get size OUICHEFS_BLOCK_SIZE and link count 2,
regular files size 0 and link count 1; i_blocks is 1 and all timestamps are
the current time.  The owner ids come from the calling task
(inode_init_owner, external): modelled as 0. -/
def ouichefs_new_inode (fs : FS) (mode : FMode) (now : Nat) : OpResult Nat :=
  if mode ≠ FMode.reg ∧ mode ≠ FMode.dir then OpResult.err Errno.inval fs
  else if fs.nrFreeInodes = 0 ∨ fs.nrFreeBlocks = 0 then
    OpResult.err Errno.nospc fs
  else
    match get_free_inode fs with
    | (ino, fs1) =>
        if ino = 0 then OpResult.err Errno.nospc fs1
        else
          match get_free_block fs1 with
          | (bno, fs2) =>
              if bno = 0 then OpResult.err Errno.nospc (put_inode fs2 ino)
              else
                OpResult.ok ino
                  { fs2 with inodes := fun j =>
                      if j = ino then
                        { mode := mode, uid := 0, gid := 0,
                          size := if mode = FMode.dir then OUICHEFS_BLOCK_SIZE
                            else 0,
                          atime := now, mtime := now, ctime := now,
                          nlink := if mode = FMode.dir then 2 else 1,
                          blocks := 1, index_block := bno }
                      else fs2.inodes j }

/-- ouichefs_create (inode.c:505-589): reject over-long names; read the
parent's index block; when the last slot is used, run the eviction pass and
fail with EMLINK when it reports no victim; allocate and initialise the new
inode; scrub its index block (rolling back the allocations when the block
is unreadable — the in-memory inode is dropped without ever being written
back); store the new entry in the first free slot (out of bounds when none
exists); update the parent's timestamps and, for a directory, link
count. -/
def ouichefs_create (strat : Option Strat) (fs : FS) (dirIno : Nat)
    (name : List Nat) (mode : FMode) (now : Nat) : OpResult Nat :=
  if OUICHEFS_FILENAME_LEN < name.length then OpResult.err Errno.nametoolong fs
  else
    let dIdx := (fs.inodes dirIno).index_block
    if fs.bad dIdx then OpResult.err Errno.ioFail fs
    else
      match
        (if (fs.dirBlocks dIdx (OUICHEFS_MAX_SUBFILES - 1)).inode ≠ 0 then
          ouichefs_fblocks strat fs dirIno now
        else Except.ok (0, fs)) with
      | Except.error f => OpResult.fault f
      | Except.ok rfs =>
          if rfs.1 ≠ 0 then OpResult.err Errno.mlink rfs.2
          else
            match ouichefs_new_inode rfs.2 mode now with
            | OpResult.err e fsN => OpResult.err e fsN
            | OpResult.fault f => OpResult.fault f
            | OpResult.ok ino fsN =>
                let bno := (fsN.inodes ino).index_block
                if fsN.bad bno then
                  OpResult.err Errno.ioFail
                    (put_inode
                      (put_block
                        { fsN with inodes := fun j =>
                            if j = ino then rfs.2.inodes ino else fsN.inodes j }
                        bno)
                      ino)
                else
                  let fsS := scrubBlock fsN bno
                  let slot := firstFreeSlotGo (fsS.dirBlocks dIdx)
                    OUICHEFS_MAX_SUBFILES 0
                  if slot = OUICHEFS_MAX_SUBFILES then
                    OpResult.fault (Fault.oobWrite slot)
                  else
                    let fsW : FS :=
                      { fsS with dirBlocks := fun b =>
                          if b = dIdx then
                            (fun j => if j = slot then
                                ⟨ino, strncpyBuf name OUICHEFS_FILENAME_LEN⟩
                              else fsS.dirBlocks dIdx j)
                          else fsS.dirBlocks b }
                    OpResult.ok ino
                      { fsW with inodes := fun j =>
                          if j = dirIno then
                            { fsW.inodes dirIno with
                              mtime := now, atime := now, ctime := now,
                              nlink := if mode = FMode.dir then
                                  (fsW.inodes dirIno).nlink + 1
                                else (fsW.inodes dirIno).nlink }
                          else fsW.inodes j }

/-! ### Rename (inode.c:591-703) -/

/-- The rename flags the code tests (inode.c:606). -/
structure RenameFlags where
  exchange : Bool
  whiteout : Bool

/-- The first rename loop (inode.c:618-634) over all OUICHEFS_MAX_SUBFILES
entries of the destination block: for a same-directory rename, remember the
(last) position whose filename matches the old name; fail with EEXIST when
any entry's filename matches the new name; remember the first zero entry.
The C code assigns f_pos just before the EEXIST return, which discards the
local, so checking EEXIST first is observationally the same iteration. -/
def renameChkGo (db : Nat → OuichefsFile) (sameDir : Bool)
    (oldName newName : List Nat) :
    Nat → Nat → Option Nat → Option Nat → Except Unit (Option Nat × Option Nat)
  | 0, _, fpos, npos => Except.ok (fpos, npos)
  | fuel + 1, i, fpos, npos =>
      if strncmpIsEq (db i).filename newName OUICHEFS_FILENAME_LEN then
        Except.error ()
      else
        renameChkGo db sameDir oldName newName fuel (i + 1)
          (if sameDir ∧ strncmpIsEq (db i).filename oldName
              OUICHEFS_FILENAME_LEN then some i
            else fpos)
          (if npos = none ∧ (db i).inode = 0 then some i else npos)

/-- The source-directory scan of a cross-directory rename (inode.c:672-677).
The loop condition is the constant OUICHEFS_MAX_SUBFILES, not
i < OUICHEFS_MAX_SUBFILES, so the loop leaves the entry array whenever no
zero entry stops it: reading files[i] with i ≥ OUICHEFS_MAX_SUBFILES is out
of bounds.  Fuel OUICHEFS_MAX_SUBFILES + 1 reaches either outcome. -/
def renameSrcScanGo (db : Nat → OuichefsFile) (ino : Nat) :
    Nat → Nat → Option Nat → Except Fault (Option Nat × Nat)
  | 0, i, _ => Except.error (Fault.oobRead i)
  | fuel + 1, i, fId =>
      if OUICHEFS_MAX_SUBFILES ≤ i then Except.error (Fault.oobRead i)
      else if (db i).inode = ino then renameSrcScanGo db ino fuel (i + 1) (some i)
      else if (db i).inode = 0 then Except.ok (fId, i)
      else renameSrcScanGo db ino fuel (i + 1) fId

/-- ouichefs_rename (inode.c:591-703): reject exchange/whiteout flags and
over-long new names; read the destination block; run the check loop (EEXIST
on a new-name collision); for a same-directory rename overwrite only the
filename of the entry found for the old name (files[-1] when none was
found); for a cross-directory move fail with EMLINK when the destination
has no free slot, insert there, update the destination's metadata, then
scan the source block for the moved inode (the unbounded loop), compact it
as remove does, and update the source's metadata. -/
def ouichefs_rename (fs : FS) (oldDir : Nat) (oldName : List Nat)
    (newDir : Nat) (newName : List Nat) (srcIno : Nat) (flags : RenameFlags)
    (now : Nat) : OpResult Unit :=
  if flags.exchange ∨ flags.whiteout then OpResult.err Errno.inval fs
  else if OUICHEFS_FILENAME_LEN < newName.length then
    OpResult.err Errno.nametoolong fs
  else
    let nIdx := (fs.inodes newDir).index_block
    if fs.bad nIdx then OpResult.err Errno.ioFail fs
    else
      let db := fs.dirBlocks nIdx
      match renameChkGo db (decide (newDir = oldDir)) oldName newName
          OUICHEFS_MAX_SUBFILES 0 none none with
      | Except.error _ => OpResult.err Errno.exist fs
      | Except.ok fnpos =>
          if newDir = oldDir then
            match fnpos.1 with
            | none => OpResult.fault Fault.negIndex
            | some p =>
                OpResult.ok ()
                  { fs with dirBlocks := fun b =>
                      if b = nIdx then
                        (fun j => if j = p then
                            { db p with
                              filename := strncpyBuf newName
                                OUICHEFS_FILENAME_LEN }
                          else db j)
                      else fs.dirBlocks b }
          else
            match fnpos.2 with
            | none => OpResult.err Errno.mlink fs
            | some np =>
                let fs1 : FS :=
                  { fs with dirBlocks := fun b =>
                      if b = nIdx then
                        (fun j => if j = np then
                            ⟨srcIno, strncpyBuf newName OUICHEFS_FILENAME_LEN⟩
                          else db j)
                      else fs.dirBlocks b }
                let fs2 : FS :=
                  { fs1 with inodes := fun j =>
                      if j = newDir then
                        { fs1.inodes newDir with
                          atime := now, ctime := now, mtime := now,
                          nlink := if (fs1.inodes srcIno).mode = FMode.dir then
                              (fs1.inodes newDir).nlink + 1
                            else (fs1.inodes newDir).nlink }
                      else fs1.inodes j }
                let oIdx := (fs2.inodes oldDir).index_block
                if fs2.bad oIdx then OpResult.err Errno.ioFail fs2
                else
                  let odb := fs2.dirBlocks oIdx
                  match renameSrcScanGo odb srcIno
                      (OUICHEFS_MAX_SUBFILES + 1) 0 none with
                  | Except.error f => OpResult.fault f
                  | Except.ok r =>
                      match r.1 with
                      | none => OpResult.fault Fault.negIndex
                      | some fId =>
                          let odb1 : Nat → OuichefsFile :=
                            if fId = OUICHEFS_MAX_SUBFILES - 1 then odb
                            else fun j => if fId ≤ j ∧ j + 1 < r.2 then
                                odb (j + 1)
                              else odb j
                          let fs3 : FS :=
                            { fs2 with dirBlocks := fun b =>
                                if b = oIdx then
                                  (fun j => if j = r.2 - 1 then emptyEntry
                                    else odb1 j)
                                else fs2.dirBlocks b }
                          OpResult.ok ()
                            { fs3 with inodes := fun j =>
                                if j = oldDir then
                                  { fs3.inodes oldDir with
                                    atime := now, ctime := now, mtime := now,
                                    nlink := if (fs3.inodes srcIno).mode
                                        = FMode.dir then
                                        (fs3.inodes oldDir).nlink - 1
                                      else (fs3.inodes oldDir).nlink }
                                else fs3.inodes j }

/-! ## Claim C4: deletion route of the eviction pass -/

/-- Claim C4: the claimed fallback is broken in the code.  When a dentry
alias exists, the pass takes the name-based vfs_unlink route on the found
dentry, as claimed.  When no alias exists, however, the pass does not reach
the direct inode-based removal without accessing the absent dentry: the
pr_info at inode.c:359 reads dentry->d_iname before the NULL test at
inode.c:360, so the no-alias case dereferences the NULL dentry. -/
theorem fblocks_route_no_alias_derefs_null :
    fblocks_route none = Except.error Fault.nullDeref ∧
    fblocks_route (some ()) = Except.ok EvRoute.viaDentry := by
  exact ⟨rfl, rfl⟩

/-! ## Claim C5: the source scan of a cross-directory rename -/

/-- A state for exercising the rename source scan: directory inode 1 (index
block 10) is empty, directory inode 2 (index block 11) is completely full —
all 128 entries hold non-zero inodes 3..130 — and inode 5 is a regular file
listed in directory 2. -/
def fsC5 : FS :=
  { dirBlocks := fun b j =>
      if b = 11 then
        (if j < OUICHEFS_MAX_SUBFILES then ⟨j + 3, List.replicate 28 1⟩
         else emptyEntry)
      else emptyEntry,
    idxBlocks := fun _ _ => 0,
    byteBlocks := fun _ _ => 0,
    bad := fun _ => false,
    inodes := fun i =>
      if i = 1 then ⟨FMode.dir, 0, 0, 4096, 0, 0, 0, 2, 1, 10⟩
      else if i = 2 then ⟨FMode.dir, 0, 0, 4096, 0, 0, 0, 2, 1, 11⟩
      else if i = 5 then ⟨FMode.reg, 0, 0, 0, 0, 0, 0, 1, 1, 12⟩
      else ⟨FMode.free, 0, 0, 0, 0, 0, 0, 0, 0, 0⟩,
    ibm := fun _ => false,
    bbm := fun _ => false,
    nrInodes := 16, nrBlocks := 16, nrFreeInodes := 0, nrFreeBlocks := 0,
    icount := fun _ => 0,
    hasAlias := fun _ => false,
    view := [] }

/-- Claim C5: violated by the code.  On the concrete state fsC5, moving
inode 5 out of the completely full source directory 2 (no zero-inode
terminator entry) makes the source scan of ouichefs_rename read the entry
array at index OUICHEFS_MAX_SUBFILES: the loop at inode.c:672 has the
constant OUICHEFS_MAX_SUBFILES as its condition instead of
i < OUICHEFS_MAX_SUBFILES, so only a zero entry can stop it. -/
theorem rename_src_scan_out_of_bounds :
    (ouichefs_rename fsC5 2 [1] 1 [2] 5 ⟨false, false⟩ 7).faultOf
      = some (Fault.oobRead OUICHEFS_MAX_SUBFILES) ∧
    ∀ j, j < OUICHEFS_MAX_SUBFILES →
      (fsC5.dirBlocks ((fsC5.inodes 2).index_block) j).inode ≠ 0 := by
  constructor
  · decide
  · decide

/-! ## Claim C2: create on a full directory with no evictable victim -/

/-- Claim C2: confirmed.  When the parent's last entry slot is non-zero,
ouichefs_create first runs the eviction pass on the parent's subtree
(ouichefs_fblocks, invoked at inode.c:533); when the pass finds no eligible
victim it returns -1, and create returns -EMLINK (inode.c:534) having
performed only reads: the directory entries, inode records, bitmaps and
free counts are all left unchanged (the result carries the original
state). -/
theorem create_full_dir_no_victim (strat : Option Strat) (fs : FS)
    (dirIno : Nat) (name : List Nat) (mode : FMode) (now : Nat)
    (hlen : name.length ≤ OUICHEFS_FILENAME_LEN)
    (hread : fs.bad ((fs.inodes dirIno).index_block) = false)
    (hfull : (fs.dirBlocks ((fs.inodes dirIno).index_block)
        (OUICHEFS_MAX_SUBFILES - 1)).inode ≠ 0)
    (hnov : fblocksVictim strat dirIno fs.view = none) :
    ouichefs_create strat fs dirIno name mode now
      = OpResult.err Errno.mlink fs := by
  unfold ouichefs_create ouichefs_fblocks
  rw [hnov, if_neg (by omega : ¬ OUICHEFS_FILENAME_LEN < name.length)]
  rw [if_neg (by rw [hread]; exact Bool.false_ne_true)]
  rw [if_pos hfull]
  norm_num

/-- A state whose directory inode 1 (index block 10) is completely full and
whose eviction view is empty, so that a victim search finds nothing. -/
def fsC2 : FS :=
  { dirBlocks := fun b j =>
      if b = 10 then ⟨j + 3, List.replicate 28 1⟩ else emptyEntry,
    idxBlocks := fun _ _ => 0,
    byteBlocks := fun _ _ => 0,
    bad := fun _ => false,
    inodes := fun i =>
      if i = 1 then ⟨FMode.dir, 0, 0, 4096, 0, 0, 0, 2, 1, 10⟩
      else ⟨FMode.free, 0, 0, 0, 0, 0, 0, 0, 0, 0⟩,
    ibm := fun i => decide (i = 6),
    bbm := fun b => decide (b = 9),
    nrInodes := 16, nrBlocks := 16, nrFreeInodes := 1, nrFreeBlocks := 1,
    icount := fun _ => 0,
    hasAlias := fun _ => false,
    view := [] }

theorem create_full_dir_no_victim_witness :
    (([4] : List Nat).length ≤ OUICHEFS_FILENAME_LEN) ∧
    fsC2.bad ((fsC2.inodes 1).index_block) = false ∧
    (fsC2.dirBlocks ((fsC2.inodes 1).index_block)
        (OUICHEFS_MAX_SUBFILES - 1)).inode ≠ 0 ∧
    fblocksVictim none 1 fsC2.view = none ∧
    ouichefs_create none fsC2 1 [4] FMode.reg 9
      = OpResult.err Errno.mlink fsC2 := by
  have hnov : fblocksVictim none 1 fsC2.view = none := by
    show fblocksVictim none 1 [] = none
    unfold fblocksVictim
    rw [ouichefs_iterate_eq_foldl]
    simp [ouichefs_visit]
  exact ⟨by decide, by decide, by decide, hnov,
    create_full_dir_no_victim none fsC2 1 [4] FMode.reg 9 (by decide)
      (by decide) (by decide) hnov⟩

/-! ## Claim C6: entry removal compacts the directory -/

theorem removeScanGo_spec (db : Nat → OuichefsFile) (ino k p : Nat)
    (hk : k ≤ OUICHEFS_MAX_SUBFILES) (hp : p < k) (hino : ino ≠ 0)
    (hpe : (db p).inode = ino)
    (hnz : ∀ j, j < k → (db j).inode ≠ 0)
    (huniq : ∀ j, j < k → j ≠ p → (db j).inode ≠ ino)
    (hkz : k < OUICHEFS_MAX_SUBFILES → (db k).inode = 0) :
    ∀ fuel i fId, i + fuel = OUICHEFS_MAX_SUBFILES → i ≤ k →
      fId = (if p < i then some p else none) →
      removeScanGo db ino fuel i fId = (some p, k) := by
  intro fuel
  induction fuel with
  | zero =>
      intro i fId hif hik hfid
      have hi : i = OUICHEFS_MAX_SUBFILES := by omega
      have hkk : k = OUICHEFS_MAX_SUBFILES := by
        have := hk
        omega
      rw [removeScanGo, hfid, if_pos (by omega), hi, hkk]
  | succ fuel ih =>
      intro i fId hif hik hfid
      rw [removeScanGo]
      by_cases hie : i = p
      · rw [if_pos (by rw [hie]; exact hpe)]
        have h1 : some i = (if p < i + 1 then some p else none) := by
          rw [if_pos (by omega), hie]
        exact ih (i + 1) (some i) (by omega) (by omega) h1
      · by_cases hik2 : i < k
        · rw [if_neg (huniq i hik2 hie), if_neg (hnz i hik2)]
          have h1 : fId = (if p < i + 1 then some p else none) := by
            rw [hfid]
            by_cases hpi : p < i
            · rw [if_pos hpi, if_pos (by omega)]
            · rw [if_neg hpi, if_neg (by omega)]
          exact ih (i + 1) fId (by omega) (by omega) h1
        · have hik3 : i = k := by omega
          have hkz' : (db i).inode = 0 := by
            rw [hik3]
            exact hkz (by omega)
          rw [if_neg (by rw [hkz']; exact fun h => hino h.symm), if_pos hkz',
            hfid, if_pos (by omega), hik3]

/-- Claim C6: confirmed.  For a directory block left-packed with k non-zero
entries whose target inode sits at position p < k (once), the removal code
of ouichefs_remove (inode.c:52-68) shifts every following entry left by
one, zeroes the vacated slot k-1, leaves every entry before p and at or
past k unchanged, and the resulting array is again left-packed: every slot
from k-1 on reads a zero inode, so the k-1 surviving entries are contiguous
from index 0 in their original relative order. -/
theorem remove_entry_compacts (db : Nat → OuichefsFile) (ino k p : Nat)
    (hk : k ≤ OUICHEFS_MAX_SUBFILES) (hp : p < k) (hino : ino ≠ 0)
    (hpe : (db p).inode = ino)
    (hnz : ∀ j, j < k → (db j).inode ≠ 0)
    (huniq : ∀ j, j < k → j ≠ p → (db j).inode ≠ ino)
    (hzero : ∀ j, j < OUICHEFS_MAX_SUBFILES → k ≤ j → (db j).inode = 0) :
    ∃ db', dirRemoveEntry db ino = some db' ∧
      (∀ j, j < p → db' j = db j) ∧
      (∀ j, p ≤ j → j + 1 < k → db' j = db (j + 1)) ∧
      db' (k - 1) = emptyEntry ∧
      (∀ j, j < OUICHEFS_MAX_SUBFILES → k ≤ j → db' j = db j) ∧
      (∀ j, j < OUICHEFS_MAX_SUBFILES → k - 1 ≤ j → (db' j).inode = 0) := by
  have hscan : removeScan db ino = (some p, k) := by
    unfold removeScan
    exact removeScanGo_spec db ino k p hk hp hino hpe hnz huniq
      (fun h => hzero k h (le_refl k)) OUICHEFS_MAX_SUBFILES 0 none
      (by omega) (by omega) (by rw [if_neg (by omega)])
  unfold dirRemoveEntry
  rw [hscan]
  have hlast : p = OUICHEFS_MAX_SUBFILES - 1 → k = OUICHEFS_MAX_SUBFILES := by
    intro h
    unfold OUICHEFS_MAX_SUBFILES at *
    omega
  refine ⟨_, rfl, ?_, ?_, ?_, ?_, ?_⟩
  · intro j hj
    rw [if_neg (by omega : ¬ j = k - 1)]
    by_cases h127 : p = OUICHEFS_MAX_SUBFILES - 1
    · rw [if_pos h127]
    · rw [if_neg h127]
      rw [if_neg (by omega : ¬ (p ≤ j ∧ j + 1 < k))]
  · intro j h1 h2
    rw [if_neg (by omega : ¬ j = k - 1)]
    by_cases h127 : p = OUICHEFS_MAX_SUBFILES - 1
    · exact absurd (hlast h127) (by omega)
    · rw [if_neg h127, if_pos ⟨h1, h2⟩]
  · rw [if_pos rfl]
  · intro j hj hkj
    rw [if_neg (by omega : ¬ j = k - 1)]
    by_cases h127 : p = OUICHEFS_MAX_SUBFILES - 1
    · rw [if_pos h127]
    · rw [if_neg h127]
      rw [if_neg (by omega : ¬ (p ≤ j ∧ j + 1 < k))]
  · intro j hj hkj
    by_cases hjk1 : j = k - 1
    · rw [if_pos hjk1]
      rfl
    · rw [if_neg hjk1]
      have hjge : k ≤ j := by omega
      by_cases h127 : p = OUICHEFS_MAX_SUBFILES - 1
      · rw [if_pos h127]
        exact hzero j hj hjge
      · rw [if_neg h127]
        rw [if_neg (by omega : ¬ (p ≤ j ∧ j + 1 < k))]
        exact hzero j hj hjge

/-- A concrete left-packed directory block with three entries. -/
def db6 : Nat → OuichefsFile := fun j =>
  if j = 0 then ⟨5, strncpyBuf [1] OUICHEFS_FILENAME_LEN⟩
  else if j = 1 then ⟨7, strncpyBuf [2] OUICHEFS_FILENAME_LEN⟩
  else if j = 2 then ⟨9, strncpyBuf [3] OUICHEFS_FILENAME_LEN⟩
  else emptyEntry

theorem remove_entry_compacts_witness :
    ((3 : Nat) ≤ OUICHEFS_MAX_SUBFILES ∧ (1 : Nat) < 3 ∧ (7 : Nat) ≠ 0 ∧
      (db6 1).inode = 7 ∧
      (∀ j, j < 3 → (db6 j).inode ≠ 0) ∧
      (∀ j, j < 3 → j ≠ 1 → (db6 j).inode ≠ 7) ∧
      (∀ j, j < OUICHEFS_MAX_SUBFILES → 3 ≤ j → (db6 j).inode = 0)) ∧
    (∃ db', dirRemoveEntry db6 7 = some db' ∧
      (∀ j, j < 1 → db' j = db6 j) ∧
      (∀ j, 1 ≤ j → j + 1 < 3 → db' j = db6 (j + 1)) ∧
      db' (3 - 1) = emptyEntry ∧
      (∀ j, j < OUICHEFS_MAX_SUBFILES → 3 ≤ j → db' j = db6 j) ∧
      (∀ j, j < OUICHEFS_MAX_SUBFILES → 3 - 1 ≤ j → (db' j).inode = 0)) := by
  refine ⟨⟨by decide, by decide, by decide, by decide, by decide, by decide,
    by decide⟩, ?_⟩
  exact remove_entry_compacts db6 7 3 1 (by decide) (by decide) (by decide)
    (by decide) (by decide) (by decide) (by decide)

/-! ## Claim C9: removal with an unreadable target index block -/

/-- Claim C9: confirmed.  When the target's index block cannot be read
(inode.c:83-85), ouichefs_remove skips all data-block cleanup — no data
block is freed in the block bitmap and no block content is touched, so the
data blocks are leaked — yet it still removes the target's directory entry
from the parent, zeroes the inode's fields (mode, owner ids, size,
timestamps, block count, index pointer), frees the inode and the index
block number in the bitmaps (inode.c:112-126), and returns success. -/
theorem remove_unreadable_index_leaks (fs : FS) (dirIno tIno now k p : Nat)
    (hread : fs.bad ((fs.inodes dirIno).index_block) = false)
    (hbadT : fs.bad ((fs.inodes tIno).index_block) = true)
    (hk : k ≤ OUICHEFS_MAX_SUBFILES) (hp : p < k) (hino : tIno ≠ 0)
    (hpe : ((fs.dirBlocks ((fs.inodes dirIno).index_block)) p).inode = tIno)
    (hnz : ∀ j, j < k →
      ((fs.dirBlocks ((fs.inodes dirIno).index_block)) j).inode ≠ 0)
    (huniq : ∀ j, j < k → j ≠ p →
      ((fs.dirBlocks ((fs.inodes dirIno).index_block)) j).inode ≠ tIno)
    (hzero : ∀ j, j < OUICHEFS_MAX_SUBFILES → k ≤ j →
      ((fs.dirBlocks ((fs.inodes dirIno).index_block)) j).inode = 0) :
    ∃ fs', ouichefs_remove fs dirIno tIno now = OpResult.ok () fs' ∧
      (∀ j, j < OUICHEFS_MAX_SUBFILES →
        (fs'.dirBlocks ((fs.inodes dirIno).index_block) j).inode ≠ tIno) ∧
      (fs'.inodes tIno).mode = FMode.free ∧
      (fs'.inodes tIno).uid = 0 ∧ (fs'.inodes tIno).gid = 0 ∧
      (fs'.inodes tIno).size = 0 ∧ (fs'.inodes tIno).atime = 0 ∧
      (fs'.inodes tIno).mtime = 0 ∧ (fs'.inodes tIno).ctime = 0 ∧
      (fs'.inodes tIno).blocks = 0 ∧ (fs'.inodes tIno).index_block = 0 ∧
      fs'.ibm tIno = true ∧ fs'.nrFreeInodes = fs.nrFreeInodes + 1 ∧
      fs'.bbm ((fs.inodes tIno).index_block) = true ∧
      fs'.nrFreeBlocks = fs.nrFreeBlocks + 1 ∧
      (∀ b, b ≠ (fs.inodes tIno).index_block → fs'.bbm b = fs.bbm b) ∧
      (∀ b, fs'.byteBlocks b = fs.byteBlocks b) ∧
      (∀ b, fs'.idxBlocks b = fs.idxBlocks b) := by
  obtain ⟨db', hdb, hp1, hp2, hp3, hp4, hp5⟩ :=
    remove_entry_compacts (fs.dirBlocks ((fs.inodes dirIno).index_block))
      tIno k p hk hp hino hpe hnz huniq hzero
  have hnotin : ∀ j, j < OUICHEFS_MAX_SUBFILES → (db' j).inode ≠ tIno := by
    intro j hj
    by_cases h1 : j < p
    · rw [hp1 j h1]
      exact huniq j (by omega) (by omega)
    · by_cases h2 : j + 1 < k
      · rw [hp2 j (by omega) h2]
        exact huniq (j + 1) h2 (by omega)
      · rw [hp5 j hj (by omega)]
        exact fun h => hino h.symm
  unfold ouichefs_remove
  rw [if_neg (by rw [hread]; exact Bool.false_ne_true), hdb]
  simp only [hbadT, eq_self_iff_true, if_true]
  refine ⟨_, rfl, ?_, ?_, ?_, ?_, ?_, ?_, ?_, ?_, ?_, ?_, ?_, ?_, ?_, ?_,
    ?_, ?_, ?_⟩
  · intro j hj
    simp only [put_inode, put_block, eq_self_iff_true, if_true]
    exact hnotin j hj
  · simp [put_inode, put_block, zeroInode]
  · simp [put_inode, put_block, zeroInode]
  · simp [put_inode, put_block, zeroInode]
  · simp [put_inode, put_block, zeroInode]
  · simp [put_inode, put_block, zeroInode]
  · simp [put_inode, put_block, zeroInode]
  · simp [put_inode, put_block, zeroInode]
  · simp [put_inode, put_block, zeroInode]
  · simp [put_inode, put_block, zeroInode]
  · simp [put_inode, put_block]
  · simp [put_inode, put_block]
  · simp [put_inode, put_block]
  · simp [put_inode, put_block]
  · intro b hb
    simp [put_inode, put_block, hb]
  · intro b
    simp [put_inode, put_block, scrubBlock]
  · intro b
    simp [put_inode, put_block, scrubBlock]

/-- A state for exercising C9: directory inode 1 (readable index block 10)
lists the regular file inode 3, whose own index block 11 is unreadable and
references data block 12. -/
def fsC9 : FS :=
  { dirBlocks := fun b j =>
      if b = 10 ∧ j = 0 then ⟨3, strncpyBuf [1] OUICHEFS_FILENAME_LEN⟩
      else emptyEntry,
    idxBlocks := fun b j => if b = 11 ∧ j = 0 then 12 else 0,
    byteBlocks := fun b j => if b = 12 ∧ j = 0 then 55 else 0,
    bad := fun b => decide (b = 11),
    inodes := fun i =>
      if i = 1 then ⟨FMode.dir, 0, 0, 4096, 0, 0, 0, 2, 1, 10⟩
      else if i = 3 then ⟨FMode.reg, 0, 0, 100, 4, 5, 6, 1, 2, 11⟩
      else ⟨FMode.free, 0, 0, 0, 0, 0, 0, 0, 0, 0⟩,
    ibm := fun _ => false,
    bbm := fun _ => false,
    nrInodes := 16, nrBlocks := 16, nrFreeInodes := 0, nrFreeBlocks := 0,
    icount := fun _ => 0,
    hasAlias := fun _ => false,
    view := [] }

theorem remove_unreadable_index_leaks_witness :
    (fsC9.bad ((fsC9.inodes 1).index_block) = false ∧
      fsC9.bad ((fsC9.inodes 3).index_block) = true ∧
      (1 : Nat) ≤ OUICHEFS_MAX_SUBFILES ∧ (0 : Nat) < 1 ∧ (3 : Nat) ≠ 0 ∧
      ((fsC9.dirBlocks ((fsC9.inodes 1).index_block)) 0).inode = 3 ∧
      (∀ j, j < 1 →
        ((fsC9.dirBlocks ((fsC9.inodes 1).index_block)) j).inode ≠ 0) ∧
      (∀ j, j < 1 → j ≠ 0 →
        ((fsC9.dirBlocks ((fsC9.inodes 1).index_block)) j).inode ≠ 3) ∧
      (∀ j, j < OUICHEFS_MAX_SUBFILES → 1 ≤ j →
        ((fsC9.dirBlocks ((fsC9.inodes 1).index_block)) j).inode = 0)) ∧
    (∃ fs', ouichefs_remove fsC9 1 3 9 = OpResult.ok () fs' ∧
      (∀ j, j < OUICHEFS_MAX_SUBFILES →
        (fs'.dirBlocks ((fsC9.inodes 1).index_block) j).inode ≠ 3) ∧
      (fs'.inodes 3).mode = FMode.free ∧
      (fs'.inodes 3).uid = 0 ∧ (fs'.inodes 3).gid = 0 ∧
      (fs'.inodes 3).size = 0 ∧ (fs'.inodes 3).atime = 0 ∧
      (fs'.inodes 3).mtime = 0 ∧ (fs'.inodes 3).ctime = 0 ∧
      (fs'.inodes 3).blocks = 0 ∧ (fs'.inodes 3).index_block = 0 ∧
      fs'.ibm 3 = true ∧ fs'.nrFreeInodes = fsC9.nrFreeInodes + 1 ∧
      fs'.bbm ((fsC9.inodes 3).index_block) = true ∧
      fs'.nrFreeBlocks = fsC9.nrFreeBlocks + 1 ∧
      (∀ b, b ≠ (fsC9.inodes 3).index_block → fs'.bbm b = fsC9.bbm b) ∧
      (∀ b, fs'.byteBlocks b = fsC9.byteBlocks b) ∧
      (∀ b, fs'.idxBlocks b = fsC9.idxBlocks b)) := by
  refine ⟨⟨by decide, by decide, by decide, by decide, by decide, by decide,
    by decide, by decide, by decide⟩, ?_⟩
  exact remove_unreadable_index_leaks fsC9 1 3 9 1 0 (by decide) (by decide)
    (by decide) (by decide) (by decide) (by decide) (by decide) (by decide)
    (by decide)

/-! ## Claim C8: rmdir and the not-empty condition -/

theorem ouichefs_remove_returns_ok (fs : FS) (dirIno tIno now : Nat)
    (hread : fs.bad ((fs.inodes dirIno).index_block) = false)
    (hdb : ∃ db', dirRemoveEntry
      (fs.dirBlocks ((fs.inodes dirIno).index_block)) tIno = some db') :
    ∃ fs', ouichefs_remove fs dirIno tIno now = OpResult.ok () fs' := by
  obtain ⟨db', hdb⟩ := hdb
  unfold ouichefs_remove
  rw [if_neg (by rw [hread]; exact Bool.false_ne_true), hdb]
  exact ⟨_, rfl⟩

/-- Claim C8, amended: provided the target's index block and — for the
delegated removal — the parent's index block are readable, and the target
has an entry in its parent, ouichefs_rmdir fails with ENOTEMPTY exactly
when the target's link count exceeds 2 or the first slot of its directory
index is non-zero; otherwise it succeeds and performs the identical cleanup
as unlink, being literally the same call (ouichefs_unlink delegates to
ouichefs_remove).  The claim as frozen holds only up to I/O faults: an
unreadable block yields EIO instead (see the counterexample). -/
theorem rmdir_notempty_characterisation (fs : FS) (dirIno tIno now k p : Nat)
    (hreadT : fs.bad ((fs.inodes tIno).index_block) = false)
    (hread : fs.bad ((fs.inodes dirIno).index_block) = false)
    (hk : k ≤ OUICHEFS_MAX_SUBFILES) (hp : p < k) (hino : tIno ≠ 0)
    (hpe : ((fs.dirBlocks ((fs.inodes dirIno).index_block)) p).inode = tIno)
    (hnz : ∀ j, j < k →
      ((fs.dirBlocks ((fs.inodes dirIno).index_block)) j).inode ≠ 0)
    (huniq : ∀ j, j < k → j ≠ p →
      ((fs.dirBlocks ((fs.inodes dirIno).index_block)) j).inode ≠ tIno)
    (hzero : ∀ j, j < OUICHEFS_MAX_SUBFILES → k ≤ j →
      ((fs.dirBlocks ((fs.inodes dirIno).index_block)) j).inode = 0) :
    ((ouichefs_rmdir fs dirIno tIno now).errOf = some Errno.notempty ↔
      (2 < (fs.inodes tIno).nlink ∨
        (fs.dirBlocks ((fs.inodes tIno).index_block) 0).inode ≠ 0)) ∧
    ((fs.inodes tIno).nlink ≤ 2 →
      (fs.dirBlocks ((fs.inodes tIno).index_block) 0).inode = 0 →
      ouichefs_rmdir fs dirIno tIno now
        = ouichefs_remove fs dirIno tIno now ∧
      ∃ fs', ouichefs_rmdir fs dirIno tIno now = OpResult.ok () fs') := by
  have hok : ∃ fs', ouichefs_remove fs dirIno tIno now = OpResult.ok () fs' := by
    refine ouichefs_remove_returns_ok fs dirIno tIno now hread ?_
    obtain ⟨db', h, _⟩ := remove_entry_compacts
      (fs.dirBlocks ((fs.inodes dirIno).index_block)) tIno k p hk hp hino hpe
      hnz huniq hzero
    exact ⟨db', h⟩
  unfold ouichefs_rmdir ouichefs_unlink
  by_cases h1 : 2 < (fs.inodes tIno).nlink
  · rw [if_pos h1]
    constructor
    · simp only [OpResult.errOf]
      exact ⟨fun _ => Or.inl h1, fun _ => trivial⟩
    · intro h2 _
      omega
  · rw [if_neg h1, if_neg (by rw [hreadT]; exact Bool.false_ne_true)]
    by_cases h2 : (fs.dirBlocks ((fs.inodes tIno).index_block) 0).inode ≠ 0
    · rw [if_pos h2]
      constructor
      · simp only [OpResult.errOf]
        exact ⟨fun _ => Or.inr h2, fun _ => trivial⟩
      · intro _ h3
        exact absurd h3 h2
    · rw [if_neg h2]
      push_neg at h2
      obtain ⟨fs', hfs'⟩ := hok
      constructor
      · rw [hfs']
        simp only [OpResult.errOf]
        constructor
        · intro h
          cases h
        · intro h
          rcases h with h | h
          · omega
          · exact absurd h2 h
      · intro _ _
        exact ⟨rfl, fs', hfs'⟩

/-- A state for the C8 counterexample: target directory inode 3 has link
count 2 but its index block 11 is unreadable, while the on-disk block 11
holds a non-empty entry list. -/
def fsC8 : FS :=
  { dirBlocks := fun b j =>
      if b = 10 ∧ j = 0 then ⟨3, strncpyBuf [1] OUICHEFS_FILENAME_LEN⟩
      else if b = 11 ∧ j = 0 then ⟨4, strncpyBuf [2] OUICHEFS_FILENAME_LEN⟩
      else emptyEntry,
    idxBlocks := fun _ _ => 0,
    byteBlocks := fun _ _ => 0,
    bad := fun b => decide (b = 11),
    inodes := fun i =>
      if i = 1 then ⟨FMode.dir, 0, 0, 4096, 0, 0, 0, 3, 1, 10⟩
      else if i = 3 then ⟨FMode.dir, 0, 0, 4096, 0, 0, 0, 2, 1, 11⟩
      else if i = 4 then ⟨FMode.reg, 0, 0, 0, 0, 0, 0, 1, 1, 12⟩
      else ⟨FMode.free, 0, 0, 0, 0, 0, 0, 0, 0, 0⟩,
    ibm := fun _ => false,
    bbm := fun _ => false,
    nrInodes := 16, nrBlocks := 16, nrFreeInodes := 0, nrFreeBlocks := 0,
    icount := fun _ => 0,
    hasAlias := fun _ => false,
    view := [] }

/-- Claim C8, counterexample: on fsC8 the target's link count is 2 and its
directory index's first slot is non-zero, so the claim requires the
not-empty error; the code instead returns EIO, because the index block is
read (inode.c:723-725) before the first-slot test and the read fails.  So
neither "fails with ENOTEMPTY exactly when ..." nor "in every other case it
succeeds" holds as stated. -/
theorem rmdir_io_fault_breaks_claim :
    (ouichefs_rmdir fsC8 1 3 9).errOf = some Errno.ioFail ∧
    (fsC8.inodes 3).nlink ≤ 2 ∧
    (fsC8.dirBlocks ((fsC8.inodes 3).index_block) 0).inode ≠ 0 := by
  exact ⟨by decide, by decide, by decide⟩

/-- A state for the C8 witness: directory inode 1 (readable index block 10)
lists the empty directory inode 3 (link count 2, readable empty index
block 11). -/
def fsC8w : FS :=
  { dirBlocks := fun b j =>
      if b = 10 ∧ j = 0 then ⟨3, strncpyBuf [1] OUICHEFS_FILENAME_LEN⟩
      else emptyEntry,
    idxBlocks := fun _ _ => 0,
    byteBlocks := fun _ _ => 0,
    bad := fun _ => false,
    inodes := fun i =>
      if i = 1 then ⟨FMode.dir, 0, 0, 4096, 0, 0, 0, 3, 1, 10⟩
      else if i = 3 then ⟨FMode.dir, 0, 0, 4096, 0, 0, 0, 2, 1, 11⟩
      else ⟨FMode.free, 0, 0, 0, 0, 0, 0, 0, 0, 0⟩,
    ibm := fun _ => false,
    bbm := fun _ => false,
    nrInodes := 16, nrBlocks := 16, nrFreeInodes := 0, nrFreeBlocks := 0,
    icount := fun _ => 0,
    hasAlias := fun _ => false,
    view := [] }

theorem rmdir_notempty_characterisation_witness :
    (fsC8w.bad ((fsC8w.inodes 3).index_block) = false ∧
      fsC8w.bad ((fsC8w.inodes 1).index_block) = false ∧
      (1 : Nat) ≤ OUICHEFS_MAX_SUBFILES ∧ (0 : Nat) < 1 ∧ (3 : Nat) ≠ 0 ∧
      ((fsC8w.dirBlocks ((fsC8w.inodes 1).index_block)) 0).inode = 3 ∧
      (∀ j, j < 1 →
        ((fsC8w.dirBlocks ((fsC8w.inodes 1).index_block)) j).inode ≠ 0) ∧
      (∀ j, j < 1 → j ≠ 0 →
        ((fsC8w.dirBlocks ((fsC8w.inodes 1).index_block)) j).inode ≠ 3) ∧
      (∀ j, j < OUICHEFS_MAX_SUBFILES → 1 ≤ j →
        ((fsC8w.dirBlocks ((fsC8w.inodes 1).index_block)) j).inode = 0)) ∧
    (((ouichefs_rmdir fsC8w 1 3 9).errOf = some Errno.notempty ↔
        (2 < (fsC8w.inodes 3).nlink ∨
          (fsC8w.dirBlocks ((fsC8w.inodes 3).index_block) 0).inode ≠ 0)) ∧
      ((fsC8w.inodes 3).nlink ≤ 2 →
        (fsC8w.dirBlocks ((fsC8w.inodes 3).index_block) 0).inode = 0 →
        ouichefs_rmdir fsC8w 1 3 9 = ouichefs_remove fsC8w 1 3 9 ∧
        ∃ fs', ouichefs_rmdir fsC8w 1 3 9 = OpResult.ok () fs')) := by
  refine ⟨⟨by decide, by decide, by decide, by decide, by decide, by decide,
    by decide, by decide, by decide⟩, ?_⟩
  exact rmdir_notempty_characterisation fsC8w 1 3 9 1 0 (by decide)
    (by decide) (by decide) (by decide) (by decide) (by decide) (by decide)
    (by decide) (by decide)

/-! ## Claim C10: same-directory rename -/

theorem renameChkGo_spec (db : Nat → OuichefsFile)
    (oldName newName : List Nat) (p : Nat)
    (hp : p < OUICHEFS_MAX_SUBFILES)
    (hmatch : ∀ j, j < OUICHEFS_MAX_SUBFILES →
      (strncmpIsEq (db j).filename oldName OUICHEFS_FILENAME_LEN = true ↔
        j = p))
    (hnew : ∀ j, j < OUICHEFS_MAX_SUBFILES →
      strncmpIsEq (db j).filename newName OUICHEFS_FILENAME_LEN = false) :
    ∀ fuel i fpos npos, i + fuel = OUICHEFS_MAX_SUBFILES →
      fpos = (if p < i then some p else none) →
      ∃ npos', renameChkGo db true oldName newName fuel i fpos npos
        = Except.ok (some p, npos') := by
  intro fuel
  induction fuel with
  | zero =>
      intro i fpos npos hif hfp
      rw [renameChkGo]
      exact ⟨npos, by rw [hfp, if_pos (by omega)]⟩
  | succ fuel ih =>
      intro i fpos npos hif hfp
      have hm := hmatch i (by omega)
      have hn := hnew i (by omega)
      rw [renameChkGo, if_neg (by rw [hn]; exact Bool.false_ne_true)]
      by_cases hip : i = p
      · rw [if_pos ⟨rfl, hm.mpr hip⟩]
        exact ih (i + 1) (some i) _ (by omega)
          (by rw [if_pos (by omega), hip])
      · rw [if_neg (fun hc => hip (hm.mp hc.2))]
        refine ih (i + 1) fpos _ (by omega) ?_
        rw [hfp]
        by_cases hpi : p < i
        · rw [if_pos hpi, if_pos (by omega)]
        · rw [if_neg hpi, if_neg (by omega)]

/-- Claim C10: confirmed.  For a same-directory rename whose old name
matches exactly one entry (at position p) and whose new name matches none,
ouichefs_rename succeeds and rewrites only the filename field of that entry
(inode.c:636-643): the entry's inode number, every other directory entry,
every other block, the inode records (hence the inode's block allocation:
its i_blocks, its index block and the block bitmap) and the free counts are
left unchanged. -/
theorem rename_same_dir_rewrites_name_only (fs : FS) (dirIno : Nat)
    (oldName newName : List Nat) (srcIno now p : Nat)
    (hlen : newName.length ≤ OUICHEFS_FILENAME_LEN)
    (hbad : fs.bad ((fs.inodes dirIno).index_block) = false)
    (hp : p < OUICHEFS_MAX_SUBFILES)
    (hmatch : ∀ j, j < OUICHEFS_MAX_SUBFILES →
      (strncmpIsEq ((fs.dirBlocks ((fs.inodes dirIno).index_block) j)).filename
          oldName OUICHEFS_FILENAME_LEN = true ↔ j = p))
    (hnew : ∀ j, j < OUICHEFS_MAX_SUBFILES →
      strncmpIsEq ((fs.dirBlocks ((fs.inodes dirIno).index_block) j)).filename
        newName OUICHEFS_FILENAME_LEN = false) :
    ∃ fs', ouichefs_rename fs dirIno oldName dirIno newName srcIno
        ⟨false, false⟩ now = OpResult.ok () fs' ∧
      (fs'.dirBlocks ((fs.inodes dirIno).index_block) p).inode
        = (fs.dirBlocks ((fs.inodes dirIno).index_block) p).inode ∧
      (fs'.dirBlocks ((fs.inodes dirIno).index_block) p).filename
        = strncpyBuf newName OUICHEFS_FILENAME_LEN ∧
      (∀ j, j ≠ p → fs'.dirBlocks ((fs.inodes dirIno).index_block) j
        = fs.dirBlocks ((fs.inodes dirIno).index_block) j) ∧
      (∀ b, b ≠ (fs.inodes dirIno).index_block →
        fs'.dirBlocks b = fs.dirBlocks b) ∧
      fs'.inodes = fs.inodes ∧ fs'.idxBlocks = fs.idxBlocks ∧
      fs'.byteBlocks = fs.byteBlocks ∧ fs'.bbm = fs.bbm ∧
      fs'.ibm = fs.ibm ∧ fs'.nrFreeBlocks = fs.nrFreeBlocks ∧
      fs'.nrFreeInodes = fs.nrFreeInodes := by
  obtain ⟨npos', hscan⟩ := renameChkGo_spec
    (fs.dirBlocks ((fs.inodes dirIno).index_block)) oldName newName p hp
    hmatch hnew OUICHEFS_MAX_SUBFILES 0 none none (by omega)
    (by rw [if_neg (by omega)])
  unfold ouichefs_rename
  rw [if_neg (by simp : ¬ ((RenameFlags.mk false false).exchange
      ∨ (RenameFlags.mk false false).whiteout))]
  rw [if_neg (by omega : ¬ OUICHEFS_FILENAME_LEN < newName.length)]
  rw [if_neg (by rw [hbad]; exact Bool.false_ne_true)]
  rw [decide_eq_true (rfl : dirIno = dirIno)]
  simp only [hscan, eq_self_iff_true, if_true]
  refine ⟨_, rfl, ?_, ?_, ?_, ?_, rfl, rfl, rfl, rfl, rfl, rfl, rfl⟩
  · simp
  · simp
  · intro j hj
    simp [hj]
  · intro b hb
    simp [hb]

/-- A state for the C10 witness: directory inode 1 (index block 10) holds
the single entry for inode 5 under the name byte 1. -/
def fsC10 : FS :=
  { dirBlocks := fun b j =>
      if b = 10 ∧ j = 0 then ⟨5, strncpyBuf [1] OUICHEFS_FILENAME_LEN⟩
      else emptyEntry,
    idxBlocks := fun _ _ => 0,
    byteBlocks := fun _ _ => 0,
    bad := fun _ => false,
    inodes := fun i =>
      if i = 1 then ⟨FMode.dir, 0, 0, 4096, 0, 0, 0, 2, 1, 10⟩
      else if i = 5 then ⟨FMode.reg, 0, 0, 3, 0, 0, 0, 1, 2, 12⟩
      else ⟨FMode.free, 0, 0, 0, 0, 0, 0, 0, 0, 0⟩,
    ibm := fun _ => false,
    bbm := fun _ => false,
    nrInodes := 16, nrBlocks := 16, nrFreeInodes := 0, nrFreeBlocks := 0,
    icount := fun _ => 0,
    hasAlias := fun _ => false,
    view := [] }

theorem rename_same_dir_rewrites_name_only_witness :
    (([2] : List Nat).length ≤ OUICHEFS_FILENAME_LEN ∧
      fsC10.bad ((fsC10.inodes 1).index_block) = false ∧
      (0 : Nat) < OUICHEFS_MAX_SUBFILES ∧
      (∀ j, j < OUICHEFS_MAX_SUBFILES →
        (strncmpIsEq ((fsC10.dirBlocks ((fsC10.inodes 1).index_block) j)).filename
            [1] OUICHEFS_FILENAME_LEN = true ↔ j = 0)) ∧
      (∀ j, j < OUICHEFS_MAX_SUBFILES →
        strncmpIsEq ((fsC10.dirBlocks ((fsC10.inodes 1).index_block) j)).filename
          [2] OUICHEFS_FILENAME_LEN = false)) ∧
    (∃ fs', ouichefs_rename fsC10 1 [1] 1 [2] 5 ⟨false, false⟩ 9
        = OpResult.ok () fs' ∧
      (fs'.dirBlocks ((fsC10.inodes 1).index_block) 0).inode
        = (fsC10.dirBlocks ((fsC10.inodes 1).index_block) 0).inode ∧
      (fs'.dirBlocks ((fsC10.inodes 1).index_block) 0).filename
        = strncpyBuf [2] OUICHEFS_FILENAME_LEN ∧
      (∀ j, j ≠ 0 → fs'.dirBlocks ((fsC10.inodes 1).index_block) j
        = fsC10.dirBlocks ((fsC10.inodes 1).index_block) j) ∧
      (∀ b, b ≠ (fsC10.inodes 1).index_block →
        fs'.dirBlocks b = fsC10.dirBlocks b) ∧
      fs'.inodes = fsC10.inodes ∧ fs'.idxBlocks = fsC10.idxBlocks ∧
      fs'.byteBlocks = fsC10.byteBlocks ∧ fs'.bbm = fsC10.bbm ∧
      fs'.ibm = fsC10.ibm ∧ fs'.nrFreeBlocks = fsC10.nrFreeBlocks ∧
      fs'.nrFreeInodes = fsC10.nrFreeInodes) := by
  refine ⟨⟨by decide, by decide, by decide, by decide, by decide⟩, ?_⟩
  exact rename_same_dir_rewrites_name_only fsC10 1 [1] [2] 5 9 0 (by decide)
    (by decide) (by decide) (by decide) (by decide)

/-! ## Claim C7: create followed by lookup -/

theorem strncmp_strncpy_self : ∀ (name : List Nat) (n : Nat),
    name.length ≤ n → (∀ c ∈ name, c ≠ 0) →
    strncmpIsEq (strncpyBuf name n) name n = true := by
  intro name
  induction name with
  | nil =>
      intro n _ _
      cases n with
      | zero => rfl
      | succ m =>
          rw [strncmpIsEq]
          simp [strncpyBuf, List.replicate_succ]
  | cons c cs ih =>
      intro n hlen hnz
      cases n with
      | zero => simp at hlen
      | succ m =>
          have hc : c ≠ 0 := hnz c (List.mem_cons_self c cs)
          have hbuf : strncpyBuf (c :: cs) (m + 1) = c :: strncpyBuf cs m := by
            simp only [strncpyBuf, List.take_succ_cons, List.length_cons,
              Nat.succ_sub_succ, List.cons_append]
          rw [hbuf, strncmpIsEq]
          simp only [List.headD_cons, List.tail_cons]
          rw [if_neg (by simp), if_neg hc]
          exact ih m (by simpa using hlen)
            (fun d hd => hnz d (List.mem_cons_of_mem c hd))

theorem firstFreeSlotGo_char (db : Nat → OuichefsFile) :
    ∀ fuel i, (∃ j, i ≤ j ∧ j < i + fuel ∧ (db j).inode = 0) →
      firstFreeSlotGo db fuel i < i + fuel ∧
      (db (firstFreeSlotGo db fuel i)).inode = 0 ∧
      i ≤ firstFreeSlotGo db fuel i ∧
      ∀ j, i ≤ j → j < firstFreeSlotGo db fuel i → (db j).inode ≠ 0 := by
  intro fuel
  induction fuel with
  | zero =>
      intro i h
      obtain ⟨j, h1, h2, _⟩ := h
      omega
  | succ fuel ih =>
      intro i h
      rw [firstFreeSlotGo]
      by_cases hz : (db i).inode = 0
      · rw [if_pos hz]
        exact ⟨by omega, hz, le_refl i, fun j h1 h2 => absurd h1 (by omega)⟩
      · rw [if_neg hz]
        have h' : ∃ j, i + 1 ≤ j ∧ j < (i + 1) + fuel ∧ (db j).inode = 0 := by
          obtain ⟨j, h1, h2, h3⟩ := h
          refine ⟨j, ?_, by omega, h3⟩
          rcases Nat.eq_or_lt_of_le h1 with he | hl
          · exact absurd (he ▸ h3) hz
          · omega
        obtain ⟨g1, g2, g3, g4⟩ := ih (i + 1) h'
        refine ⟨by omega, g2, by omega, ?_⟩
        intro j h1 h2
        rcases Nat.eq_or_lt_of_le h1 with he | hl
        · rw [← he]
          exact hz
        · exact g4 j (by omega) h2

theorem lookupScanGo_finds (db : Nat → OuichefsFile) (name : List Nat)
    (s : Nat) (hs : s < OUICHEFS_MAX_SUBFILES)
    (hmatch : strncmpIsEq (db s).filename name OUICHEFS_FILENAME_LEN = true)
    (hnz : (db s).inode ≠ 0)
    (hbefore : ∀ j, j < s → (db j).inode ≠ 0 ∧
      strncmpIsEq (db j).filename name OUICHEFS_FILENAME_LEN = false) :
    ∀ fuel i, i + fuel = OUICHEFS_MAX_SUBFILES → i ≤ s →
      lookupScanGo db name fuel i = some (db s).inode := by
  intro fuel
  induction fuel with
  | zero =>
      intro i hif his
      omega
  | succ fuel ih =>
      intro i hif his
      rw [lookupScanGo]
      rcases Nat.eq_or_lt_of_le his with he | hl
      · rw [he, if_neg hnz, if_pos hmatch]
      · rw [if_neg (hbefore i hl).1,
          if_neg (by rw [(hbefore i hl).2]; exact Bool.false_ne_true)]
        exact ih (i + 1) (by omega) (by omega)

theorem ouichefs_new_inode_spec (fs : FS) (mode : FMode) (now ino0 bno0 : Nat)
    (hmode : mode = FMode.reg ∨ mode = FMode.dir)
    (hfi : fs.nrFreeInodes ≠ 0) (hfb : fs.nrFreeBlocks ≠ 0)
    (hino : firstFreeBitGo fs.ibm fs.nrInodes 0 = some ino0)
    (hino0 : ino0 ≠ 0)
    (hbno : firstFreeBitGo fs.bbm fs.nrBlocks 0 = some bno0)
    (hbno0 : bno0 ≠ 0) :
    ∃ fsN, ouichefs_new_inode fs mode now = OpResult.ok ino0 fsN ∧
      fsN.inodes ino0 =
        ⟨mode, 0, 0, (if mode = FMode.dir then OUICHEFS_BLOCK_SIZE else 0),
          now, now, now, (if mode = FMode.dir then 2 else 1), 1, bno0⟩ ∧
      (∀ j, j ≠ ino0 → fsN.inodes j = fs.inodes j) ∧
      fsN.dirBlocks = fs.dirBlocks ∧ fsN.byteBlocks = fs.byteBlocks ∧
      fsN.idxBlocks = fs.idxBlocks ∧ fsN.bad = fs.bad := by
  have hmode' : ¬ (mode ≠ FMode.reg ∧ mode ≠ FMode.dir) := by
    rcases hmode with h | h <;> subst h <;> simp
  have hcnt : ¬ (fs.nrFreeInodes = 0 ∨ fs.nrFreeBlocks = 0) := by
    intro h
    rcases h with h | h
    · exact hfi h
    · exact hfb h
  unfold ouichefs_new_inode get_free_inode get_free_block
  rw [if_neg hmode', if_neg hcnt]
  simp only [hino, hbno]
  rw [if_neg hino0, if_neg hbno0]
  refine ⟨_, rfl, ?_, ?_, rfl, rfl, rfl, rfl⟩
  · simp
  · intro j hj
    simp [hj]

theorem ouichefs_create_spec (strat : Option Strat) (fs : FS) (dirIno : Nat)
    (name : List Nat) (mode : FMode) (now ino0 bno0 : Nat)
    (hmode : mode = FMode.reg ∨ mode = FMode.dir)
    (hlen : name.length ≤ OUICHEFS_FILENAME_LEN)
    (hbadD : fs.bad ((fs.inodes dirIno).index_block) = false)
    (hnotfull : (fs.dirBlocks ((fs.inodes dirIno).index_block)
        (OUICHEFS_MAX_SUBFILES - 1)).inode = 0)
    (hfi : fs.nrFreeInodes ≠ 0) (hfb : fs.nrFreeBlocks ≠ 0)
    (hino : firstFreeBitGo fs.ibm fs.nrInodes 0 = some ino0)
    (hino0 : ino0 ≠ 0)
    (hbno : firstFreeBitGo fs.bbm fs.nrBlocks 0 = some bno0)
    (hbno0 : bno0 ≠ 0)
    (hbadB : fs.bad bno0 = false)
    (hbne : bno0 ≠ (fs.inodes dirIno).index_block)
    (hine : ino0 ≠ dirIno) :
    ∃ fs' s, ouichefs_create strat fs dirIno name mode now
        = OpResult.ok ino0 fs' ∧
      s < OUICHEFS_MAX_SUBFILES ∧
      fs'.bad = fs.bad ∧
      (fs'.inodes dirIno).index_block = (fs.inodes dirIno).index_block ∧
      (fs'.inodes ino0).index_block = bno0 ∧
      (∀ off, fs'.byteBlocks bno0 off = 0) ∧
      fs'.dirBlocks ((fs.inodes dirIno).index_block) s
        = ⟨ino0, strncpyBuf name OUICHEFS_FILENAME_LEN⟩ ∧
      (∀ j, j < s → fs'.dirBlocks ((fs.inodes dirIno).index_block) j
          = fs.dirBlocks ((fs.inodes dirIno).index_block) j ∧
        (fs.dirBlocks ((fs.inodes dirIno).index_block) j).inode ≠ 0) := by
  obtain ⟨fsN, hN, hNino, hNother, hNdb, hNbyte, hNidx, hNbad⟩ :=
    ouichefs_new_inode_spec fs mode now ino0 bno0 hmode hfi hfb hino hino0
      hbno hbno0
  have hIdxN : (fsN.inodes ino0).index_block = bno0 := by rw [hNino]
  obtain ⟨hs1, hs2, hs3, hs4⟩ := firstFreeSlotGo_char
    (fs.dirBlocks ((fs.inodes dirIno).index_block)) OUICHEFS_MAX_SUBFILES 0
    ⟨OUICHEFS_MAX_SUBFILES - 1, by decide, by decide, hnotfull⟩
  have hlen' : ¬ OUICHEFS_FILENAME_LEN < name.length := by omega
  have hbad' : ¬ fs.bad ((fs.inodes dirIno).index_block) = true := by
    rw [hbadD]
    exact Bool.false_ne_true
  have hfull' : ¬ (fs.dirBlocks ((fs.inodes dirIno).index_block)
      (OUICHEFS_MAX_SUBFILES - 1)).inode ≠ 0 := fun h => h hnotfull
  have h0 : ¬ ((0 : Int) ≠ 0) := by norm_num
  have hbadB' : ¬ fs.bad bno0 = true := by
    rw [hbadB]
    exact Bool.false_ne_true
  have hbneD : (fs.inodes dirIno).index_block ≠ bno0 := Ne.symm hbne
  have hs1' : firstFreeSlotGo
      (fs.dirBlocks ((fs.inodes dirIno).index_block)) OUICHEFS_MAX_SUBFILES 0
      < OUICHEFS_MAX_SUBFILES := by simpa using hs1
  have hslot : ¬ firstFreeSlotGo
      (fs.dirBlocks ((fs.inodes dirIno).index_block)) OUICHEFS_MAX_SUBFILES 0
      = OUICHEFS_MAX_SUBFILES := Nat.ne_of_lt hs1'
  simp only [ouichefs_create, if_neg hlen', if_neg hbad', if_neg hfull',
    if_neg h0, hN, hIdxN, hNbad, if_neg hbadB', scrubBlock, if_neg hbneD,
    hNdb, if_neg hslot]
  refine ⟨_, firstFreeSlotGo
    (fs.dirBlocks ((fs.inodes dirIno).index_block)) OUICHEFS_MAX_SUBFILES 0,
    rfl, hs1', ?_, ?_, ?_, ?_, ?_, ?_⟩
  · funext b
    simp [hNbad]
  · simp [Ne.symm hine, hNother dirIno (Ne.symm hine)]
  · simp [hine, hNino]
  · intro off
    simp
  · simp
  · intro j hj
    have hjs : j ≠ firstFreeSlotGo
        (fs.dirBlocks ((fs.inodes dirIno).index_block))
        OUICHEFS_MAX_SUBFILES 0 := by omega
    constructor
    · simp [hjs]
    · exact hs4 j (by omega) hj

theorem ouichefs_lookup_finds (fs' : FS) (dirIno : Nat) (name : List Nat)
    (now2 ino0 s : Nat)
    (hlen : name.length ≤ OUICHEFS_FILENAME_LEN)
    (hnzname : ∀ c ∈ name, c ≠ 0)
    (hbad : fs'.bad ((fs'.inodes dirIno).index_block) = false)
    (hs : s < OUICHEFS_MAX_SUBFILES)
    (hentry : fs'.dirBlocks ((fs'.inodes dirIno).index_block) s
      = ⟨ino0, strncpyBuf name OUICHEFS_FILENAME_LEN⟩)
    (hino0 : ino0 ≠ 0)
    (hbefore : ∀ j, j < s →
      (fs'.dirBlocks ((fs'.inodes dirIno).index_block) j).inode ≠ 0 ∧
      strncmpIsEq (fs'.dirBlocks ((fs'.inodes dirIno).index_block) j).filename
        name OUICHEFS_FILENAME_LEN = false) :
    ∃ fs'', ouichefs_lookup fs' dirIno name now2
      = OpResult.ok (some ino0) fs'' := by
  have hscan : lookupScanGo (fs'.dirBlocks ((fs'.inodes dirIno).index_block))
      name OUICHEFS_MAX_SUBFILES 0 = some ino0 := by
    have hm : strncmpIsEq
        (fs'.dirBlocks ((fs'.inodes dirIno).index_block) s).filename name
        OUICHEFS_FILENAME_LEN = true := by
      rw [hentry]
      exact strncmp_strncpy_self name OUICHEFS_FILENAME_LEN hlen hnzname
    have hz : (fs'.dirBlocks ((fs'.inodes dirIno).index_block) s).inode ≠ 0 := by
      rw [hentry]
      exact hino0
    have hrun := lookupScanGo_finds
      (fs'.dirBlocks ((fs'.inodes dirIno).index_block)) name s hs hm hz
      hbefore OUICHEFS_MAX_SUBFILES 0 (by omega) (by omega)
    rw [hrun, hentry]
  have hlen' : ¬ OUICHEFS_FILENAME_LEN < name.length := by omega
  have hbad' : ¬ fs'.bad ((fs'.inodes dirIno).index_block) = true := by
    rw [hbad]
    exact Bool.false_ne_true
  simp only [ouichefs_lookup, if_neg hlen', if_neg hbad', hscan]
  exact ⟨_, rfl⟩

/-- Claim C7, amended: for every valid name (within the filename length
limit, non-zero bytes) that is not already present in the parent directory,
and every valid mode (regular or directory), when the parent's entry table
has a zero last slot (so no eviction pass runs), the allocator finds a free
inode ino0 and a free, readable index block bno0 (bno0 distinct from the
parent's own index block, ino0 from the parent inode), a successful create
followed by a lookup of the same name in the same directory returns the
same inode number ino0, and the content of the new inode's index block
reads as all zero bytes.  Without the not-already-present hypothesis the
claim fails: create never checks for duplicates and lookup returns the
first match (see the counterexample). -/
theorem create_then_lookup_same_inode (strat : Option Strat) (fs : FS)
    (dirIno : Nat) (name : List Nat) (mode : FMode) (now now2 ino0 bno0 : Nat)
    (hmode : mode = FMode.reg ∨ mode = FMode.dir)
    (hlen : name.length ≤ OUICHEFS_FILENAME_LEN)
    (hnzname : ∀ c ∈ name, c ≠ 0)
    (hbadD : fs.bad ((fs.inodes dirIno).index_block) = false)
    (hnotfull : (fs.dirBlocks ((fs.inodes dirIno).index_block)
        (OUICHEFS_MAX_SUBFILES - 1)).inode = 0)
    (hnamefree : ∀ j, j < OUICHEFS_MAX_SUBFILES →
      strncmpIsEq ((fs.dirBlocks ((fs.inodes dirIno).index_block)) j).filename
        name OUICHEFS_FILENAME_LEN = false)
    (hfi : fs.nrFreeInodes ≠ 0) (hfb : fs.nrFreeBlocks ≠ 0)
    (hino : firstFreeBitGo fs.ibm fs.nrInodes 0 = some ino0)
    (hino0 : ino0 ≠ 0)
    (hbno : firstFreeBitGo fs.bbm fs.nrBlocks 0 = some bno0)
    (hbno0 : bno0 ≠ 0)
    (hbadB : fs.bad bno0 = false)
    (hbne : bno0 ≠ (fs.inodes dirIno).index_block)
    (hine : ino0 ≠ dirIno) :
    ∃ fs', ouichefs_create strat fs dirIno name mode now
        = OpResult.ok ino0 fs' ∧
      (∀ off, fs'.byteBlocks ((fs'.inodes ino0).index_block) off = 0) ∧
      ∃ fs'', ouichefs_lookup fs' dirIno name now2
        = OpResult.ok (some ino0) fs'' := by
  obtain ⟨fs', s, hC, hs1, hCbad, hCdIdx, hCino, hCbyte, hCentry, hCbefore⟩ :=
    ouichefs_create_spec strat fs dirIno name mode now ino0 bno0 hmode hlen
      hbadD hnotfull hfi hfb hino hino0 hbno hbno0 hbadB hbne hine
  refine ⟨fs', hC, ?_, ?_⟩
  · intro off
    rw [hCino]
    exact hCbyte off
  · refine ouichefs_lookup_finds fs' dirIno name now2 ino0 s hlen hnzname
      ?_ hs1 ?_ hino0 ?_
    · rw [hCdIdx]
      rw [congrFun hCbad ((fs.inodes dirIno).index_block)]
      exact hbadD
    · rw [hCdIdx]
      exact hCentry
    · intro j hj
      rw [hCdIdx, (hCbefore j hj).1]
      exact ⟨(hCbefore j hj).2, hnamefree j (by omega)⟩

/-- Composition of a create with a lookup of the same name in the same
directory, keeping only the two inode numbers: the created one and the one
lookup returns. -/
def createThenLookup (strat : Option Strat) (fs : FS) (dirIno : Nat)
    (name : List Nat) (mode : FMode) (now : Nat) : Option (Nat × Option Nat) :=
  match ouichefs_create strat fs dirIno name mode now with
  | OpResult.ok ino fs' =>
      match ouichefs_lookup fs' dirIno name now with
      | OpResult.ok r _ => some (ino, r)
      | _ => none
  | _ => none

/-- A state whose directory inode 1 (index block 10, not full) already
holds an entry named by byte 3 for inode 5; inode 6 and block 9 are the
free resources the allocator will pick. -/
def fsC7 : FS :=
  { dirBlocks := fun b j =>
      if b = 10 ∧ j = 0 then ⟨5, strncpyBuf [3] OUICHEFS_FILENAME_LEN⟩
      else emptyEntry,
    idxBlocks := fun _ _ => 0,
    byteBlocks := fun _ _ => 0,
    bad := fun _ => false,
    inodes := fun i =>
      if i = 1 then ⟨FMode.dir, 0, 0, 4096, 0, 0, 0, 2, 1, 10⟩
      else if i = 5 then ⟨FMode.reg, 0, 0, 0, 0, 0, 0, 1, 1, 12⟩
      else ⟨FMode.free, 0, 0, 0, 0, 0, 0, 0, 0, 0⟩,
    ibm := fun i => decide (i = 6),
    bbm := fun b => decide (b = 9),
    nrInodes := 16, nrBlocks := 16, nrFreeInodes := 1, nrFreeBlocks := 1,
    icount := fun _ => 0,
    hasAlias := fun _ => false,
    view := [] }

/-- Claim C7, counterexample: on fsC7, creating the valid name byte 3 —
already present for inode 5 — succeeds with the fresh inode 6 (create never
checks for duplicates, inode.c:505-589), but the following lookup of the
same name returns inode 5, the first strncmp match in entry order
(inode.c:405-414): create followed by lookup does not return the same
inode number. -/
theorem create_then_lookup_duplicate_name :
    createThenLookup none fsC7 1 [3] FMode.reg 7 = some (6, some 5) ∧
    (6 : Nat) ≠ 5 ∧ ([3] : List Nat).length ≤ OUICHEFS_FILENAME_LEN := by
  exact ⟨by decide, by decide, by decide⟩

theorem create_then_lookup_same_inode_witness :
    ((FMode.reg = FMode.reg ∨ FMode.reg = FMode.dir) ∧
      ([4] : List Nat).length ≤ OUICHEFS_FILENAME_LEN ∧
      (∀ c ∈ ([4] : List Nat), c ≠ 0) ∧
      fsC7.bad ((fsC7.inodes 1).index_block) = false ∧
      (fsC7.dirBlocks ((fsC7.inodes 1).index_block)
        (OUICHEFS_MAX_SUBFILES - 1)).inode = 0 ∧
      (∀ j, j < OUICHEFS_MAX_SUBFILES →
        strncmpIsEq ((fsC7.dirBlocks ((fsC7.inodes 1).index_block)) j).filename
          [4] OUICHEFS_FILENAME_LEN = false) ∧
      fsC7.nrFreeInodes ≠ 0 ∧ fsC7.nrFreeBlocks ≠ 0 ∧
      firstFreeBitGo fsC7.ibm fsC7.nrInodes 0 = some 6 ∧ (6 : Nat) ≠ 0 ∧
      firstFreeBitGo fsC7.bbm fsC7.nrBlocks 0 = some 9 ∧ (9 : Nat) ≠ 0 ∧
      fsC7.bad 9 = false ∧ (9 : Nat) ≠ (fsC7.inodes 1).index_block ∧
      (6 : Nat) ≠ 1) ∧
    (∃ fs', ouichefs_create none fsC7 1 [4] FMode.reg 7
        = OpResult.ok 6 fs' ∧
      (∀ off, fs'.byteBlocks ((fs'.inodes 6).index_block) off = 0) ∧
      ∃ fs'', ouichefs_lookup fs' 1 [4] 8
        = OpResult.ok (some 6) fs'') := by
  refine ⟨⟨by decide, by decide, by decide, by decide, by decide, by decide,
    by decide, by decide, by decide, by decide, by decide, by decide,
    by decide, by decide, by decide⟩, ?_⟩
  exact create_then_lookup_same_inode none fsC7 1 [4] FMode.reg 7 8 6 9
    (by decide) (by decide) (by decide) (by decide) (by decide) (by decide)
    (by decide) (by decide) (by decide) (by decide) (by decide) (by decide)
    (by decide) (by decide) (by decide)

end OuicheFS
